import Mathlib

/-!
Verification of the rivet-cli execution core against its specification.

The Rust sources are shallowly embedded: pure functions become Lean
functions, machine integers become `Nat` with an explicit `% 2^64` where
u64 wrap-around matters, fallible code returns `Option`/`Except`, and
effectful boundaries (the HTTP client, the process environment, the JSON
parser, wall-clock durations) become explicit parameters.  Each embedded
definition names the Rust item it translates.
-/

namespace Rivet

/-- Wrap-around modulus of the Rust `u64` type. -/
def U64 : Nat := 18446744073709551616

/-! ## Variable context — `src/runner/variables.rs`

`VariableContext.vars` is a `HashMap<String, String>`; we model it as an
association list in which later insertions are placed at the front and
lookup returns the first (hence most recent) binding, which matches
`HashMap::insert` replacing the previous value for a key.  The process
environment (`std::env`) is passed explicitly as `ProcEnv`. -/

/-- Process environment, a read-only key/value store (`std::env::vars`). -/
abbrev ProcEnv := List (String × String)

/-- Lookup of one process-environment variable (`std::env::var`). -/
def envVarLookup (env : ProcEnv) (k : String) : Option String :=
  (env.find? (fun p => p.1 == k)).map (fun p => p.2)

/-- Model of `VariableContext` (src/runner/variables.rs). -/
structure VariableContext where
  vars : List (String × String)
deriving DecidableEq

/-- `VariableContext::new()`. -/
def VariableContext.empty : VariableContext := ⟨[]⟩

/-- `HashMap::get` on the context's `vars` map. -/
def lookupVar (ctx : VariableContext) (k : String) : Option String :=
  (ctx.vars.find? (fun p => p.1 == k)).map (fun p => p.2)

/-- `VariableContext::set_variable` / `set` (`vars.insert(key, value)`). -/
def setVariable (ctx : VariableContext) (k v : String) : VariableContext :=
  ⟨(k, v) :: ctx.vars⟩

/-- The regex word class `\w` of `\{\{(\w+)\}\}`, restricted to its ASCII
core (identifier names as used by the suites). -/
def isWordChar (c : Char) : Bool := c.isAlpha || c.isDigit || c == '_'

/-- Greedily consume a run of word characters (the `\w+` group). -/
def takeWordRun : List Char → List Char × List Char
  | [] => ([], [])
  | c :: t =>
    if isWordChar c then
      let p := takeWordRun t
      (c :: p.1, p.2)
    else ([], c :: t)

/-- The literal text `{{name}}`, returned unchanged for an unbound name
(`format!` fallback in `substitute_variables`). -/
def varRefText (nm : List Char) : List Char :=
  '{' :: '{' :: (nm ++ '}' :: '}' :: [])

/-- Replacement value for one `{{name}}` match: the binding when present,
otherwise the original text including the braces. -/
def varReplacement (lookup : String → Option String) (nm : List Char) : List Char :=
  match lookup (String.mk nm) with
  | some v => v.data
  | none => varRefText nm

theorem takeWordRun_append : ∀ l : List Char, (takeWordRun l).1 ++ (takeWordRun l).2 = l := by
  intro l
  induction l with
  | nil => simp [takeWordRun]
  | cons c t ih =>
    by_cases h : isWordChar c
    · simp [takeWordRun, h, ih]
    · simp [takeWordRun, h]

/-- Try to match `\{\{(\w+)\}\}` at the head of the input; on success
return the replacement text and the remainder after the match. -/
def matchVarAt (lookup : String → Option String) (l : List Char) : Option (List Char × List Char) :=
  match l with
  | c1 :: c2 :: t =>
    if c1 = '{' ∧ c2 = '{' then
      match takeWordRun t with
      | ([], _) => none
      | (c :: nm, '}' :: '}' :: rest) => some (varReplacement lookup (c :: nm), rest)
      | (_ :: _, _) => none
    else none
  | _ => none

theorem matchVarAt_rest_lt (lookup : String → Option String) (l rep rest : List Char)
    (h : matchVarAt lookup l = some (rep, rest)) : rest.length < l.length := by
  match l with
  | [] => simp [matchVarAt] at h
  | [c] => simp [matchVarAt] at h
  | c :: d :: t =>
    simp only [matchVarAt] at h
    split at h
    · split at h
      · exact absurd h (by simp)
      · rename_i c' nm rest' htw
        have hT : (takeWordRun t).1 ++ (takeWordRun t).2 = t := takeWordRun_append t
        rw [htw] at hT
        cases h
        have hlen := congrArg List.length hT
        simp [List.length_append] at hlen
        simp only [List.length_cons]
        omega
      · exact absurd h (by simp)
    · exact absurd h (by simp)

/-- `var_regex.replace_all`: scan left to right, replacing each
non-overlapping leftmost `{{name}}` match (the first pass of
`substitute_variables`). -/
def varScan (lookup : String → Option String) : List Char → List Char
  | [] => []
  | c :: t =>
    match h : matchVarAt lookup (c :: t) with
    | some (rep, rest) => rep ++ varScan lookup rest
    | none => c :: varScan lookup t
termination_by l => l.length
decreasing_by
  · exact matchVarAt_rest_lt lookup (c :: t) rep rest h
  · simp

/-- Characters admitted by the `([^:}]+)` name group of the env regex. -/
def isEnvNameChar (c : Char) : Bool := !(c == ':' || c == '}')

/-- Characters admitted by the `([^}]*)` default group of the env regex. -/
def isEnvDefChar (c : Char) : Bool := !(c == '}')

/-- Greedily consume the `([^:}]+)` name group. -/
def takeNameRun : List Char → List Char × List Char
  | [] => ([], [])
  | c :: t =>
    if isEnvNameChar c then
      let p := takeNameRun t
      (c :: p.1, p.2)
    else ([], c :: t)

/-- Greedily consume the `([^}]*)` default group. -/
def takeDefRun : List Char → List Char × List Char
  | [] => ([], [])
  | c :: t =>
    if isEnvDefChar c then
      let p := takeDefRun t
      (c :: p.1, p.2)
    else ([], c :: t)

theorem takeNameRun_append : ∀ l : List Char, (takeNameRun l).1 ++ (takeNameRun l).2 = l := by
  intro l
  induction l with
  | nil => simp [takeNameRun]
  | cons c t ih =>
    by_cases h : isEnvNameChar c
    · simp [takeNameRun, h, ih]
    · simp [takeNameRun, h]

theorem takeDefRun_append : ∀ l : List Char, (takeDefRun l).1 ++ (takeDefRun l).2 = l := by
  intro l
  induction l with
  | nil => simp [takeDefRun]
  | cons c t ih =>
    by_cases h : isEnvDefChar c
    · simp [takeDefRun, h, ih]
    · simp [takeDefRun, h]

/-- Resolution of one `${NAME:default}` match: process environment first,
then the context's own bindings, then the literal default (empty when the
`:default` group is absent). -/
def envResolve (env : ProcEnv) (lookup : String → Option String)
    (nm : List Char) (df : Option (List Char)) : List Char :=
  match envVarLookup env (String.mk nm) with
  | some v => v.data
  | none =>
    match lookup (String.mk nm) with
    | some v => v.data
    | none => df.getD []

/-- Try to match `\$\{([^:}]+)(?::([^}]*))?\}` at the head of the input. -/
def matchEnvAt (env : ProcEnv) (lookup : String → Option String) (l : List Char) :
    Option (List Char × List Char) :=
  match l with
  | c1 :: c2 :: t =>
    if c1 = '$' ∧ c2 = '{' then
      match takeNameRun t with
      | ([], _) => none
      | (c :: nm, '}' :: rest) => some (envResolve env lookup (c :: nm) none, rest)
      | (c :: nm, ':' :: rest) =>
        match takeDefRun rest with
        | (df, '}' :: rest2) => some (envResolve env lookup (c :: nm) (some df), rest2)
        | (_, _) => none
      | (_ :: _, _) => none
    else none
  | _ => none

theorem matchEnvAt_rest_lt (env : ProcEnv) (lookup : String → Option String)
    (l rep rest : List Char)
    (h : matchEnvAt env lookup l = some (rep, rest)) : rest.length < l.length := by
  match l with
  | [] => simp [matchEnvAt] at h
  | [c] => simp [matchEnvAt] at h
  | c :: d :: t =>
    simp only [matchEnvAt] at h
    split at h
    · have hT : (takeNameRun t).1 ++ (takeNameRun t).2 = t := takeNameRun_append t
      split at h
      · exact absurd h (by simp)
      · rename_i c' nm rest' htw
        rw [htw] at hT
        cases h
        have hlen := congrArg List.length hT
        simp [List.length_append] at hlen
        simp only [List.length_cons]
        omega
      · rename_i c' nm rest' htw
        rw [htw] at hT
        have hD : (takeDefRun rest').1 ++ (takeDefRun rest').2 = rest' := takeDefRun_append rest'
        split at h
        · rename_i df rest2 htd
          rw [htd] at hD
          cases h
          have hlen1 := congrArg List.length hT
          have hlen2 := congrArg List.length hD
          simp [List.length_append] at hlen1 hlen2
          simp only [List.length_cons]
          omega
        · exact absurd h (by simp)
      · exact absurd h (by simp)
    · exact absurd h (by simp)

/-- `env_regex.replace_all`: the second pass of `substitute_variables`. -/
def envScan (env : ProcEnv) (lookup : String → Option String) : List Char → List Char
  | [] => []
  | c :: t =>
    match h : matchEnvAt env lookup (c :: t) with
    | some (rep, rest) => rep ++ envScan env lookup rest
    | none => c :: envScan env lookup t
termination_by l => l.length
decreasing_by
  · exact matchEnvAt_rest_lt env lookup (c :: t) rep rest h
  · simp

/-- `VariableContext::substitute_variables` (src/runner/variables.rs):
the `{{variable}}` pass runs first, the `${VARIABLE:default}` pass runs
second over the first pass's output.  Total by construction: it never
fails. -/
def substituteVariables (env : ProcEnv) (ctx : VariableContext) (text : String) : String :=
  String.mk (envScan env (lookupVar ctx) (varScan (lookupVar ctx) text.data))

/-! ## Context lifecycle — builders of `VariableContext`

`with_env_vars`, `with_config_vars`, `with_data_row` from
src/runner/variables.rs; `run_single_suite`'s context construction from
src/runner/test_runner.rs; `worker_task`'s context construction from
src/performance/runner.rs.  `HashMap` iteration order is unspecified in
Rust, so the suite `vars` map is embedded as a list recording one
iteration order. -/

/-- `VariableContext::with_env_vars`: insert every process-environment
pair. -/
def withEnvVars (ctx : VariableContext) (env : ProcEnv) : VariableContext :=
  env.foldl (fun c kv => setVariable c kv.1 kv.2) ctx

/-- `VariableContext::with_config_vars`: merge the suite `vars`, each
value substituted against the context as built so far. -/
def withConfigVars (env : ProcEnv) (ctx : VariableContext)
    (cfgVars : Option (List (String × String))) : VariableContext :=
  match cfgVars with
  | some vars => vars.foldl (fun c kv => setVariable c kv.1 (substituteVariables env c kv.2)) ctx
  | none => ctx

/-- `VariableContext::with_data_row`: overlay one dataset row. -/
def withDataRow (ctx : VariableContext) (row : List (String × String)) : VariableContext :=
  row.foldl (fun c kv => setVariable c kv.1 kv.2) ctx

/-- The context built at the start of `TestRunner::run_single_suite`:
environment seeding, then suite vars, then the optional `RIVET_ENV`
marker. -/
def runnerSuiteContext (env : ProcEnv) (cfgVars : Option (List (String × String)))
    (envName : Option String) : VariableContext :=
  let ctx := withConfigVars env (withEnvVars VariableContext.empty env) cfgVars
  match envName with
  | some e => setVariable ctx "RIVET_ENV" e
  | none => ctx

/-- `context.clone().with_data_row(&data_row)` for one dataset row: an
independent copy of the suite context extended with the row bindings. -/
def rowContext (base : VariableContext) (row : List (String × String)) : VariableContext :=
  withDataRow base row

/-- The context built by `PerformanceTestRunner::worker_task`: a fresh
`VariableContext::new()`; only when an environment name was supplied are
the suite `vars` copied, raw (`set_variable(key, value.clone())`, no
substitution), and the process environment is never consulted. -/
def workerContext (cfgVars : Option (List (String × String)))
    (envName : Option String) : VariableContext :=
  match envName, cfgVars with
  | some _, some vars => vars.foldl (fun c kv => setVariable c kv.1 kv.2) VariableContext.empty
  | _, _ => VariableContext.empty

/-! ## JSON values and parsing helpers — `src/runner/executor.rs`

`serde_json::Value` is embedded with integer numbers (`i64`/`u64`
without the float variant, which none of the claims exercise) and
objects as field lists.  `str::parse` for the integer types is embedded
with its sign handling and range checks. -/

/-- Decimal digit run: `Some value` iff the run is nonempty and all
digits (the core of Rust's integer `from_str`). -/
def digitsVal (l : List Char) : Option Nat :=
  if l.isEmpty || !(l.all Char.isDigit) then none
  else some (l.foldl (fun acc c => acc * 10 + (c.toNat - 48)) 0)

/-- `str::parse::<i64>()`: optional sign, digits, i64 range check. -/
def parseI64 (s : String) : Option Int :=
  match s.data with
  | '+' :: rest => (digitsVal rest).bind (fun n => if n ≤ 9223372036854775807 then some (n : Int) else none)
  | '-' :: rest => (digitsVal rest).bind (fun n => if n ≤ 9223372036854775808 then some (-(n : Int)) else none)
  | l => (digitsVal l).bind (fun n => if n ≤ 9223372036854775807 then some (n : Int) else none)

/-- `str::parse::<bool>()`: exactly `true` or `false`. -/
def parseBoolStr (s : String) : Option Bool :=
  if s == "true" then some true else if s == "false" then some false else none

/-- `str::parse::<u16>()`: optional plus sign, digits, u16 range check. -/
def parseU16 (s : String) : Option Nat :=
  match s.data with
  | '+' :: rest => (digitsVal rest).bind (fun n => if n ≤ 65535 then some n else none)
  | l => (digitsVal l).bind (fun n => if n ≤ 65535 then some n else none)

/-- `str::parse::<usize>()` on a 64-bit target. -/
def parseUsize (s : List Char) : Option Nat :=
  match s with
  | '+' :: rest => (digitsVal rest).bind (fun n => if n < U64 then some n else none)
  | l => (digitsVal l).bind (fun n => if n < U64 then some n else none)

/-- Model of `serde_json::Value`. -/
inductive Json where
  | null
  | bool (b : Bool)
  | num (n : Int)
  | str (s : String)
  | arr (items : List Json)
  | obj (fields : List (String × Json))

mutual

/-- Structural equality of JSON values (serde's `PartialEq`). -/
def Json.beq : Json → Json → Bool
  | .null, .null => true
  | .bool a, .bool b => a == b
  | .num a, .num b => a == b
  | .str a, .str b => a == b
  | .arr xs, .arr ys => Json.beqList xs ys
  | .obj fs, .obj gs => Json.beqFields fs gs
  | _, _ => false

/-- Element-wise equality of JSON arrays. -/
def Json.beqList : List Json → List Json → Bool
  | [], [] => true
  | x :: xs, y :: ys => Json.beq x y && Json.beqList xs ys
  | _, _ => false

/-- Field-wise equality of JSON objects. -/
def Json.beqFields : List (String × Json) → List (String × Json) → Bool
  | [], [] => true
  | (k1, v1) :: xs, (k2, v2) :: ys => k1 == k2 && Json.beq v1 v2 && Json.beqFields xs ys
  | _, _ => false

end

/-- `Value::get` with a string key. -/
def Json.getField (j : Json) (k : String) : Option Json :=
  match j with
  | .obj fs => (fs.find? (fun p => p.1 == k)).map (fun p => p.2)
  | _ => none

/-- `Value::get` with a numeric index. -/
def Json.getIdx (j : Json) (i : Nat) : Option Json :=
  match j with
  | .arr xs => xs.get? i
  | _ => none

/-- Split a character list at the first occurrence of `c`
(`str::find` plus slicing, or `split_once`). -/
def splitAtChar (c : Char) : List Char → Option (List Char × List Char)
  | [] => none
  | x :: t =>
    if x = c then some ([], t)
    else (splitAtChar c t).map (fun p => (x :: p.1, p.2))

theorem splitAtChar_eq {c : Char} : ∀ {l a b : List Char},
    splitAtChar c l = some (a, b) → l = a ++ c :: b := by
  intro l
  induction l with
  | nil => intro a b h; simp [splitAtChar] at h
  | cons x t ih =>
    intro a b h
    by_cases hx : x = c
    · subst hx
      simp only [splitAtChar, if_pos rfl, Option.some.injEq, Prod.mk.injEq] at h
      obtain ⟨rfl, rfl⟩ := h
      simp
    · simp only [splitAtChar, if_neg hx, Option.map_eq_some'] at h
      obtain ⟨⟨a', b'⟩, hs, hab⟩ := h
      cases hab
      simp [ih hs]

/-- `str::split('.')`: splits on every separator, keeping empty pieces
(`"".split` gives one empty piece, and `"a..b"` keeps the empty middle
piece, as in Rust). -/
def splitOnChar (c : Char) (l : List Char) : List (List Char) :=
  l.foldr (fun x acc =>
    match acc with
    | h :: t => if x = c then [] :: h :: t else (x :: h) :: t
    | [] => [[x]]) [[]]

/-- Field access wrapped in the executor's error message. -/
def getFieldE (cur : Json) (field : List Char) : Except String Json :=
  match cur.getField (String.mk field) with
  | some v => Except.ok v
  | none => Except.error ("Field '" ++ String.mk field ++ "' not found in JSON")

/-- Index access wrapped in the executor's error message. -/
def getIdxE (cur : Json) (i : Nat) : Except String Json :=
  match cur.getIdx i with
  | some v => Except.ok v
  | none => Except.error ("Array index " ++ toString i ++ " not found")

/-- Index parsing wrapped in the executor's error message. -/
def parseIdxE (s : List Char) : Except String Nat :=
  match parseUsize s with
  | some i => Except.ok i
  | none => Except.error ("Invalid array index: " ++ String.mk s)

/-- One iteration of the `for part in parts` loop of
`extract_jsonpath_value`. -/
def stepPart (cur : Json) (part : List Char) : Except String Json :=
  if part = [] then Except.ok cur
  else if part.contains '[' && part.getLast? == some ']' then
    match splitAtChar '[' part with
    | some (field, idxPart) =>
      let idxStr := idxPart.dropLast
      match (if field = [] then Except.ok cur else getFieldE cur field) with
      | Except.error e => Except.error e
      | Except.ok cur2 =>
        match parseIdxE idxStr with
        | Except.error e => Except.error e
        | Except.ok i => getIdxE cur2 i
    | none => Except.error "unreachable: the part was checked to contain a bracket"
  else getFieldE cur part

/-- The `for part in parts` loop. -/
def extractParts (cur : Json) : List (List Char) → Except String Json
  | [] => Except.ok cur
  | p :: rest =>
    match stepPart cur p with
    | Except.error e => Except.error e
    | Except.ok cur2 => extractParts cur2 rest

/-- `path.strip_prefix("$.").unwrap_or(path)`. -/
def stripDollarDot (l : List Char) : List Char :=
  match l with
  | '$' :: '.' :: t => t
  | _ => l

/-- `RequestExecutor::extract_jsonpath_value`: root array access
`$[i]...` first (falling through to the dotted-part loop when the
closing bracket is missing), then the dotted-part loop. -/
def extractJsonpath (j : Json) (path : List Char) : Except String Json :=
  match path with
  | c1 :: c2 :: t =>
    if c1 = '$' ∧ c2 = '[' then
      match h : splitAtChar ']' t with
      | some (idxStr, after) =>
        (match parseIdxE idxStr with
         | Except.error e => Except.error e
         | Except.ok i =>
           match getIdxE j i with
           | Except.error e => Except.error e
           | Except.ok cur =>
             match after with
             | '.' :: more => extractJsonpath cur more
             | _ => Except.ok cur)
      | none => extractParts j (splitOnChar '.' (stripDollarDot (c1 :: c2 :: t)))
    else extractParts j (splitOnChar '.' (stripDollarDot (c1 :: c2 :: t)))
  | _ => extractParts j (splitOnChar '.' (stripDollarDot path))
termination_by path.length
decreasing_by
  have := splitAtChar_eq h
  subst this
  simp [List.length_append]
  omega

/-- The expected-value preparation of `validate_jsonpath`: template
substitution, then opportunistic coercion (integer, then boolean, else
string), applied only when the expected value is a JSON string. -/
def coerceExpected (env : ProcEnv) (ctx : VariableContext) (expected : Json) : Json :=
  match expected with
  | Json.str s =>
    let sub := substituteVariables env ctx s
    match parseI64 sub with
    | some n => Json.num n
    | none =>
      match parseBoolStr sub with
      | some b => Json.bool b
      | none => Json.str sub
  | other => other

/-- `RequestExecutor::validate_jsonpath`. -/
def validateJsonpath (env : ProcEnv) (ctx : VariableContext)
    (j : Json) (path : String) (expected : Json) : Except String Unit :=
  match extractJsonpath j path.data with
  | Except.error e => Except.error e
  | Except.ok actual =>
    let ev := coerceExpected env ctx expected
    if Json.beq actual ev then Except.ok ()
    else Except.error ("JSONPath assertion failed for '" ++ path ++ "'")

/-- Model of `StatusExpectation` (src/config.rs). -/
inductive StatusExpectation where
  | num (code : Nat)
  | str (s : String)
deriving DecidableEq

/-- Model of `Expectation` (src/config.rs); `schema` and `headers` are
carried but not evaluated by the core, matching the source; the
`jsonpath` map is embedded as a list recording one iteration order. -/
structure Expectation where
  status : Option StatusExpectation
  schema : Option String
  jsonpath : Option (List (String × Json))
  headers : Option (List (String × String))

/-- The expected status code: a literal, or a template string resolved
and parsed at validation time. -/
def resolveExpectedStatus (env : ProcEnv) (ctx : VariableContext)
    (se : StatusExpectation) : Except String Nat :=
  match se with
  | .num code => Except.ok code
  | .str s =>
    let sub := substituteVariables env ctx s
    match parseU16 sub with
    | some code => Except.ok code
    | none => Except.error ("Invalid status code: " ++ sub)

/-- The JSONPath assertion loop of `validate_response`: first failure
wins. -/
def validateAssertions (env : ProcEnv) (ctx : VariableContext) (jv : Json) :
    List (String × Json) → Except String Unit
  | [] => Except.ok ()
  | (p, ev) :: rest =>
    match validateJsonpath env ctx jv p ev with
    | Except.error m => Except.error m
    | Except.ok _ => validateAssertions env ctx jv rest

/-- The JSONPath half of `validate_response`: parse the body as JSON
(the serde parser is an explicit capability) and check every assertion. -/
def validateJsonpathPart (env : ProcEnv) (ctx : VariableContext)
    (parseJson : String → Option Json) (body : String) (e : Expectation) :
    Except String Unit :=
  match e.jsonpath with
  | none => Except.ok ()
  | some asserts =>
    match parseJson body with
    | none => Except.error "Response body is not valid JSON"
    | some jv => validateAssertions env ctx jv asserts

/-- `RequestExecutor::validate_response`. -/
def validateResponse (env : ProcEnv) (ctx : VariableContext)
    (parseJson : String → Option Json) (status : Nat) (body : String)
    (e : Expectation) : Except String Unit :=
  match e.status with
  | none => validateJsonpathPart env ctx parseJson body e
  | some se =>
    match resolveExpectedStatus env ctx se with
    | Except.error m => Except.error m
    | Except.ok code =>
      if status ≠ code then
        Except.error ("Expected status " ++ toString code ++ " but got " ++ toString status)
      else validateJsonpathPart env ctx parseJson body e

/-- Model of `TestResult` (src/runner/executor.rs); the wall-clock
`duration` field is outside the embedding. -/
structure TestResult where
  name : String
  passed : Bool
  error : Option String
  response_status : Option Nat
  response_body : Option String
deriving DecidableEq

/-- Outcome of the HTTP dispatch of `execute_request` plus the body
read, the executor's only effectful boundary: `reqError` covers a bad
URL or method, connection failure and timeout (the `Err` branch of
`execute_request`), `bodyError` a response whose body read failed. -/
inductive HttpOutcome where
  | reqError (msg : String)
  | bodyError (status : Nat) (msg : String)
  | response (status : Nat) (body : String)
deriving DecidableEq

/-- `RequestExecutor::execute_test`: total — every failure mode is
captured in the returned `TestResult`. -/
def executeTest (env : ProcEnv) (ctx : VariableContext)
    (parseJson : String → Option Json) (name : String)
    (outcome : HttpOutcome) (expectation : Option Expectation) : TestResult :=
  match outcome with
  | .reqError msg =>
    { name := name, passed := false, error := some msg
      response_status := none, response_body := none }
  | .bodyError status msg =>
    { name := name, passed := false
      error := some ("Failed to read response body: " ++ msg)
      response_status := some status, response_body := none }
  | .response status body =>
    match expectation with
    | some e =>
      match validateResponse env ctx parseJson status body e with
      | Except.ok _ =>
        { name := name, passed := true, error := none
          response_status := some status, response_body := some body }
      | Except.error m =>
        { name := name, passed := false, error := some m
          response_status := some status, response_body := some body }
    | none =>
      { name := name, passed := decide (status < 400)
        error := if 400 ≤ status then some ("HTTP " ++ toString status) else none
        response_status := some status, response_body := some body }

/-! ## Test runner orchestration — `src/runner/test_runner.rs`

Steps are identified by name; the request, the expectation and the
executor are abstracted into a pass/fail oracle (`execute_test` is
already embedded above, and only the `passed` flag of its result feeds
back into scheduling).  Dataset rows are identified by index; outside a
dataset the oracle is consulted at row 0.  Completion order of a
concurrent chunk is scheduler-dependent; it is modelled as dispatch
order, on which none of the proved properties depend. -/

/-- Pass/fail outcome of a step, per dataset row. -/
abbrev StepOracle := Nat → String → Bool

/-- Per-suite oracle, for multi-suite runs. -/
abbrev SuiteOracle := String → StepOracle

/-- `str::contains` (case-sensitive substring test). -/
def containsSub (needle : List Char) : List Char → Bool
  | [] => needle.isEmpty
  | c :: t => needle.isPrefixOf (c :: t) || containsSub needle t

/-- `TestRunner::should_run_test`. -/
def shouldRunTest (filterPat : Option String) (name : String) : Bool :=
  match filterPat with
  | some p => containsSub p.data name.data
  | none => true

/-- `slice::chunks(n)`; never invoked with `n = 0` (guarded by the
`parallel ≤ 1` branches), where Rust would panic. -/
def chunksOf {α : Type} (n : Nat) : List α → List (List α)
  | [] => []
  | a :: t =>
    if n = 0 then []
    else (a :: t).take n :: chunksOf n ((a :: t).drop n)
termination_by l => l.length
decreasing_by
  simp
  omega

/-- Model of `Dataset` plus its loaded CSV rows, in file order. -/
structure DatasetM where
  rows : List (List (String × String))
  parallel : Option Nat

/-- Model of `RivetConfig` (src/config.rs) as the runner consumes it. -/
structure RivetConfig where
  vars : Option (List (String × String))
  setup : Option (List String)
  tests : List String
  teardown : Option (List String)
  dataset : Option DatasetM

/-- Sequential branch of `run_test_steps`: push each result, break after
a failure when bail is enabled. -/
def runStepsSeq (bail : Bool) (oracle : String → Bool) : List String → List (String × Bool)
  | [] => []
  | s :: rest =>
    let r := oracle s
    if bail && !r then [(s, r)]
    else (s, r) :: runStepsSeq bail oracle rest

/-- Collection loop over one dispatched chunk: every step of the chunk
was dispatched, but collection stops (returning early) at the first
failing result when bail is enabled.  Second component: whether the
chunk bailed. -/
def collectChunk (bail : Bool) (oracle : String → Bool) : List String → List (String × Bool) × Bool
  | [] => ([], false)
  | s :: rest =>
    let r := oracle s
    if bail && !r then ([(s, r)], true)
    else
      let p := collectChunk bail oracle rest
      ((s, r) :: p.1, p.2)

/-- Chunked branch of `run_test_steps`: chunk `N+1` is scheduled only
when chunk `N` did not bail. -/
def runStepChunks (bail : Bool) (oracle : String → Bool) : List (List String) → List (String × Bool)
  | [] => []
  | c :: cs =>
    let p := collectChunk bail oracle c
    p.1 ++ (if p.2 then [] else runStepChunks bail oracle cs)

/-- `TestRunner::run_test_steps`. -/
def runTestSteps (bail : Bool) (filterPat : Option String) (oracle : String → Bool)
    (steps : List String) (parallel : Nat) : List (String × Bool) :=
  let filtered := steps.filter (shouldRunTest filterPat)
  if parallel ≤ 1 then runStepsSeq bail oracle filtered
  else runStepChunks bail oracle (chunksOf parallel filtered)

/-- The setup/teardown loops of `run_single_suite`: every filtered step
runs and is recorded, with no bail check of any kind. -/
def auxStepResults (filterPat : Option String) (oracle : StepOracle)
    (steps : Option (List String)) (tag : String) : List (String × Bool) :=
  ((steps.getD []).filter (shouldRunTest filterPat)).map (fun s => (tag ++ s, oracle 0 s))

/-- `TestRunner::run_single_suite`: setup steps, then the main tests
(fanned out over every dataset row when a dataset is configured — the
row loop has no bail check), then teardown steps. -/
def runSingleSuite (bail : Bool) (filterPat : Option String) (parallelWorkers : Nat)
    (cfg : RivetConfig) (oracle : StepOracle) : List (String × Bool) :=
  let setupRes := auxStepResults filterPat oracle cfg.setup "Setup: "
  let mainRes :=
    match cfg.dataset with
    | some ds =>
      let par := ds.parallel.getD parallelWorkers
      (List.range ds.rows.length).flatMap (fun i => runTestSteps bail filterPat (oracle i) cfg.tests par)
    | none => runTestSteps bail filterPat (oracle 0) cfg.tests parallelWorkers
  let teardownRes := auxStepResults filterPat oracle cfg.teardown "Teardown: "
  setupRes ++ mainRes ++ teardownRes

/-- Model of `TestSuiteResult` (src/runner/test_runner.rs); the
wall-clock `duration` field is outside the embedding. -/
structure TestSuiteResult where
  name : String
  results : List (String × Bool)
  passed : Nat
  failed : Nat
deriving DecidableEq

/-- How both suite runners assemble a `TestSuiteResult`:
`passed = results.iter().filter(|r| r.passed).count()`,
`failed = results.len() - passed`. -/
def mkSuiteResult (name : String) (results : List (String × Bool)) : TestSuiteResult :=
  let p := (results.filter (fun r => r.2)).length
  { name := name, results := results, passed := p, failed := results.length - p }

/-- `TestRunner::run_suites_sequential`: push each suite result, break
after a suite with failures when bail is enabled. -/
def runSuitesSequential (bail : Bool) (filterPat : Option String) (parallel : Nat)
    (oracle : SuiteOracle) : List (String × RivetConfig) → List TestSuiteResult
  | [] => []
  | (n, cfg) :: rest =>
    let sr := mkSuiteResult n (runSingleSuite bail filterPat parallel cfg (oracle n))
    if bail && sr.failed > 0 then [sr]
    else sr :: runSuitesSequential bail filterPat parallel oracle rest

/-- Collection loop over one chunk of concurrently running suites
(each suite runs with within-suite parallelism 1); early return at the
first failing suite when bail is enabled. -/
def collectSuiteChunk (bail : Bool) (filterPat : Option String) (oracle : SuiteOracle) :
    List (String × RivetConfig) → List TestSuiteResult × Bool
  | [] => ([], false)
  | (n, cfg) :: rest =>
    let sr := mkSuiteResult n (runSingleSuite bail filterPat 1 cfg (oracle n))
    if bail && sr.failed > 0 then ([sr], true)
    else
      let p := collectSuiteChunk bail filterPat oracle rest
      (sr :: p.1, p.2)

/-- Chunk loop of `run_suites_parallel`. -/
def runSuiteChunks (bail : Bool) (filterPat : Option String) (oracle : SuiteOracle) :
    List (List (String × RivetConfig)) → List TestSuiteResult
  | [] => []
  | c :: cs =>
    let p := collectSuiteChunk bail filterPat oracle c
    p.1 ++ (if p.2 then [] else runSuiteChunks bail filterPat oracle cs)

/-- `TestRunner::run_suites_parallel`. -/
def runSuitesParallel (bail : Bool) (filterPat : Option String) (parallel : Nat)
    (oracle : SuiteOracle) (suites : List (String × RivetConfig)) : List TestSuiteResult :=
  runSuiteChunks bail filterPat oracle (chunksOf parallel suites)

/-- `TestRunner::run_tests`: sequential for a single suite or
parallelism ≤ 1, chunked-parallel otherwise. -/
def runTests (bail : Bool) (filterPat : Option String) (parallel : Nat)
    (oracle : SuiteOracle) (suites : List (String × RivetConfig)) : List TestSuiteResult :=
  if suites.length ≤ 1 || parallel ≤ 1 then
    runSuitesSequential bail filterPat parallel oracle suites
  else runSuitesParallel bail filterPat parallel oracle suites

/-! ## Performance metrics — `src/performance/metrics.rs`

Durations are nanosecond counts.  The `u64` counters are embedded as
`Nat`: the increments can only wrap after `2^64` recorded operations,
while the one subtraction that can wrap at realistic scales
(`request_count - error_count` inside `calculate_results`) is embedded
with the explicit wrapping formula of a release build.  The status-code
histogram is an association list; the float-valued derived fields
(`success_rate`, `requests_per_second`, the byte rates) and the
wall-clock `total_duration` are outside the embedded fragment. -/

/-- Model of `PerformanceMetrics` (the `start_time` instant is
wall-clock and outside the embedding). -/
structure PerformanceMetrics where
  response_times : List Nat
  error_count : Nat
  request_count : Nat
  status_codes : List (Nat × Nat)
  bytes_sent : Nat
  bytes_received : Nat
  connection_errors : Nat
deriving DecidableEq

/-- `PerformanceMetrics::new()`. -/
def PerformanceMetrics.init : PerformanceMetrics :=
  { response_times := [], error_count := 0, request_count := 0
    status_codes := [], bytes_sent := 0, bytes_received := 0, connection_errors := 0 }

/-- `*self.status_codes.entry(status_code).or_insert(0) += 1`. -/
def bumpStatus (codes : List (Nat × Nat)) (st : Nat) : List (Nat × Nat) :=
  if codes.any (fun p => p.1 == st) then
    codes.map (fun p => if p.1 == st then (p.1, p.2 + 1) else p)
  else codes ++ [(st, 1)]

/-- `PerformanceMetrics::record_request`. -/
def recordRequest (m : PerformanceMetrics) (rt st bs br : Nat) (isErr : Bool) :
    PerformanceMetrics :=
  { m with
    response_times := m.response_times ++ [rt]
    request_count := m.request_count + 1
    bytes_sent := m.bytes_sent + bs
    bytes_received := m.bytes_received + br
    status_codes := bumpStatus m.status_codes st
    error_count := if isErr then m.error_count + 1 else m.error_count }

/-- `PerformanceMetrics::record_connection_error`. -/
def recordConnectionError (m : PerformanceMetrics) : PerformanceMetrics :=
  { m with
    connection_errors := m.connection_errors + 1
    error_count := m.error_count + 1 }

/-- Wrapping `u64` subtraction (release-profile `a - b`). -/
def wrapSub64 (a b : Nat) : Nat := (a + (U64 - b % U64)) % U64

/-- Model of `PerformanceResults` (integer-valued fields only, see the
section comment). -/
structure PerformanceResults where
  total_requests : Nat
  successful_requests : Nat
  failed_requests : Nat
  average_response_time : Nat
  min_response_time : Nat
  max_response_time : Nat
  p50_response_time : Nat
  p95_response_time : Nat
  p99_response_time : Nat
  status_code_distribution : List (Nat × Nat)
  connection_errors : Nat
deriving DecidableEq

/-- `PerformanceMetrics::calculate_results`.  `Vec::sort` produces the
ascending sorted copy, embedded as `insertionSort` (the result, being
the unique sorted permutation of the samples, is the same list).  The
average is the u128 integer mean truncated by the `as u64` cast; the
percentile indices are `len * p / 100` in integer division. -/
def calculateResults (m : PerformanceMetrics) : PerformanceResults :=
  let total := m.request_count + m.connection_errors
  if m.response_times.isEmpty then
    { total_requests := total
      successful_requests := 0
      failed_requests := m.error_count
      average_response_time := 0
      min_response_time := 0
      max_response_time := 0
      p50_response_time := 0
      p95_response_time := 0
      p99_response_time := 0
      status_code_distribution := m.status_codes
      connection_errors := m.connection_errors }
  else
    let sorted := List.insertionSort (· ≤ ·) m.response_times
    let successful := (wrapSub64 m.request_count m.error_count + m.connection_errors) % U64
    let avg := (sorted.sum / sorted.length) % U64
    let p50i := sorted.length * 50 / 100
    let p95i := sorted.length * 95 / 100
    let p99i := sorted.length * 99 / 100
    { total_requests := total
      successful_requests := successful
      failed_requests := m.error_count
      average_response_time := avg
      min_response_time := sorted.headD 0
      max_response_time := sorted.getLastD 0
      p50_response_time := sorted.getD p50i 0
      p95_response_time := sorted.getD p95i 0
      p99_response_time := sorted.getD p99i 0
      status_code_distribution := m.status_codes
      connection_errors := m.connection_errors }

/-- One mutation of the shared metrics aggregate, as performed by the
worker loop under the metrics lock. -/
inductive MetricOp where
  | request (rt st bs br : Nat) (isErr : Bool)
  | connError
deriving DecidableEq

/-- Apply one mutation. -/
def applyOp (m : PerformanceMetrics) : MetricOp → PerformanceMetrics
  | .request rt st bs br isErr => recordRequest m rt st bs br isErr
  | .connError => recordConnectionError m

/-- The metrics state after a sequence of recorded operations (the
mutex serializes the workers' mutations into such a sequence). -/
def runOps (ops : List MetricOp) : PerformanceMetrics :=
  ops.foldl applyOp PerformanceMetrics.init

/-! ## Load controller — `src/performance/patterns.rs`

Elapsed time is passed explicitly (the source reads
`self.test_start.elapsed()`); times and rates are embedded as exact
rationals standing for the `f64` values, with the one IEEE-754 special
case the code relies on — division by zero producing +∞, saturated to
`u64::MAX` by the `as u64` cast — encoded explicitly. -/

/-- Model of `LoadPattern`. -/
inductive LoadPattern where
  | Constant
  | RampUp
  | Spike
deriving DecidableEq

/-- Model of `LoadController` (the `test_start` instant is wall-clock;
elapsed time is an explicit argument below). -/
structure LoadController where
  pattern : LoadPattern
  target_rps : Option Nat
  concurrent_users : Nat
  warmup_duration : ℚ
deriving DecidableEq

/-- `self.target_rps.unwrap_or(self.concurrent_users * 10) as f64`. -/
def baseRps (c : LoadController) : ℚ := ((c.target_rps.getD (c.concurrent_users * 10) : Nat) : ℚ)

/-- `f64 %` on nonnegative operands (the spike-cycle computation). -/
def qmod (a b : ℚ) : ℚ := a - b * ((⌊a / b⌋ : Int) : ℚ)

/-- `LoadController::current_target_rps`. -/
def currentTargetRps (c : LoadController) (elapsed : ℚ) : ℚ :=
  match c.pattern with
  | .Constant => baseRps c
  | .RampUp =>
    if elapsed < c.warmup_duration then baseRps c * (elapsed / c.warmup_duration)
    else baseRps c
  | .Spike =>
    if qmod elapsed 30 < 5 then baseRps c * 2 else baseRps c

/-- `(1000.0 / rps) as u64`: IEEE division by zero yields +∞, which the
saturating float-to-integer cast turns into `u64::MAX`; a finite
quotient is truncated toward zero and clamped into the u64 range. -/
def divMillisToU64 (rps : ℚ) : Nat :=
  if rps = 0 then U64 - 1
  else min (U64 - 1) (((1000 : ℚ) / rps).floor.toNat)

/-- `LoadController::request_delay`, in milliseconds
(`Duration::from_millis` never fails). -/
def requestDelay (c : LoadController) (elapsed : ℚ) : Option Nat :=
  c.target_rps.map (fun _ => divMillisToU64 (currentTargetRps c elapsed))

/-! ## Auxiliary predicates and concrete instances used by the
statements below. -/

/-- Whether the text contains a `{{` occurrence (a position where the
variable regex could begin to match). -/
def hasVarStart : List Char → Bool
  | [] => false
  | c :: t =>
    (match t with
     | d :: _ => c == '{' && d == '{'
     | [] => false) || hasVarStart t

/-- Whether the text contains a `${` occurrence (a position where the
environment regex could begin to match). -/
def hasEnvStart : List Char → Bool
  | [] => false
  | c :: t =>
    (match t with
     | d :: _ => c == '$' && d == '{'
     | [] => false) || hasEnvStart t

/-- The literal text `${nm}` or `${nm:df}`. -/
def envRefText (nm : List Char) (df : Option (List Char)) : List Char :=
  '$' :: '{' :: (nm ++ (match df with
    | some d => ':' :: (d ++ ['}'])
    | none => ['}']))

/-- A suite whose first setup step and first dataset row fail: two setup
steps, one test step, two dataset rows. -/
def cfgC1 : RivetConfig :=
  { vars := none
    setup := some ["s1", "s2"]
    tests := ["t1"]
    teardown := none
    dataset := some { rows := [[("k", "1")], [("k", "2")]], parallel := some 1 } }

/-- Outcome oracle for `cfgC1`: setup step `s1` fails, the test step
fails on dataset row 0 and passes on row 1. -/
def oracleC1 : StepOracle := fun i s => i == 1 || s == "s2"

/-- A one-variable process environment. -/
def procEnvC7 : ProcEnv := [("HOME", "/h")]

/-- Suite vars with a chained reference: `b` refers to `a`. -/
def varsC7 : Option (List (String × String)) := some [("a", "1"), ("b", "\x7b\x7ba\x7d\x7d")]

/-- Concrete metrics snapshot for the percentile statement: three
samples recorded out of order, one error, one connection error. -/
def m6 : PerformanceMetrics :=
  { response_times := [300, 100, 200]
    error_count := 2
    request_count := 3
    status_codes := [(200, 2), (500, 1)]
    bytes_sent := 30
    bytes_received := 60
    connection_errors := 1 }

/-! ## Lemmas about the substitution scanners -/

theorem varScan_nil (lookup : String → Option String) : varScan lookup [] = [] := by
  rw [varScan]

theorem varScan_cons_some (lookup : String → Option String) (c : Char) (t rep rest : List Char)
    (h : matchVarAt lookup (c :: t) = some (rep, rest)) :
    varScan lookup (c :: t) = rep ++ varScan lookup rest := by
  rw [varScan]
  split
  · rename_i rep' rest' heq
    rw [h] at heq
    cases heq
    rfl
  · rename_i heq
    rw [h] at heq
    cases heq

theorem varScan_cons_none (lookup : String → Option String) (c : Char) (t : List Char)
    (h : matchVarAt lookup (c :: t) = none) :
    varScan lookup (c :: t) = c :: varScan lookup t := by
  rw [varScan]
  split
  · rename_i rep' rest' heq
    rw [h] at heq
    cases heq
  · rfl

theorem envScan_nil (env : ProcEnv) (lookup : String → Option String) :
    envScan env lookup [] = [] := by
  rw [envScan]

theorem envScan_cons_some (env : ProcEnv) (lookup : String → Option String)
    (c : Char) (t rep rest : List Char)
    (h : matchEnvAt env lookup (c :: t) = some (rep, rest)) :
    envScan env lookup (c :: t) = rep ++ envScan env lookup rest := by
  rw [envScan]
  split
  · rename_i rep' rest' heq
    rw [h] at heq
    cases heq
    rfl
  · rename_i heq
    rw [h] at heq
    cases heq

theorem envScan_cons_none (env : ProcEnv) (lookup : String → Option String)
    (c : Char) (t : List Char)
    (h : matchEnvAt env lookup (c :: t) = none) :
    envScan env lookup (c :: t) = c :: envScan env lookup t := by
  rw [envScan]
  split
  · rename_i rep' rest' heq
    rw [h] at heq
    cases heq
  · rfl

theorem hasVarStart_tail {c : Char} {t : List Char} (h : hasVarStart (c :: t) = false) :
    hasVarStart t = false := by
  simp only [hasVarStart, Bool.or_eq_false_iff] at h
  exact h.2

theorem hasEnvStart_tail {c : Char} {t : List Char} (h : hasEnvStart (c :: t) = false) :
    hasEnvStart t = false := by
  simp only [hasEnvStart, Bool.or_eq_false_iff] at h
  exact h.2

theorem matchVarAt_none (lookup : String → Option String) :
    ∀ l : List Char, hasVarStart l = false → matchVarAt lookup l = none := by
  intro l h
  match l with
  | [] => rfl
  | [c] => rfl
  | c :: d :: t =>
    have hcd : ¬(c = '{' ∧ d = '{') := by
      intro hand
      obtain ⟨rfl, rfl⟩ := hand
      simp [hasVarStart] at h
    simp [matchVarAt, hcd]

theorem matchEnvAt_none (env : ProcEnv) (lookup : String → Option String) :
    ∀ l : List Char, hasEnvStart l = false → matchEnvAt env lookup l = none := by
  intro l h
  match l with
  | [] => rfl
  | [c] => rfl
  | c :: d :: t =>
    have hcd : ¬(c = '$' ∧ d = '{') := by
      intro hand
      obtain ⟨rfl, rfl⟩ := hand
      simp [hasEnvStart] at h
    simp [matchEnvAt, hcd]

theorem varScan_id (lookup : String → Option String) :
    ∀ l : List Char, hasVarStart l = false → varScan lookup l = l := by
  intro l
  induction l with
  | nil => intro _; exact varScan_nil lookup
  | cons c t ih =>
    intro h
    rw [varScan_cons_none lookup c t (matchVarAt_none lookup _ h)]
    rw [ih (hasVarStart_tail h)]

theorem envScan_id (env : ProcEnv) (lookup : String → Option String) :
    ∀ l : List Char, hasEnvStart l = false → envScan env lookup l = l := by
  intro l
  induction l with
  | nil => intro _; exact envScan_nil env lookup
  | cons c t ih =>
    intro h
    rw [envScan_cons_none env lookup c t (matchEnvAt_none env lookup _ h)]
    rw [ih (hasEnvStart_tail h)]

theorem takeWordRun_exact (nm : List Char) (r : List Char)
    (h : ∀ c ∈ nm, isWordChar c = true) :
    takeWordRun (nm ++ '}' :: r) = (nm, '}' :: r) := by
  induction nm with
  | nil =>
    show takeWordRun ('}' :: r) = ([], '}' :: r)
    rw [takeWordRun, if_neg (by decide)]
  | cons c nm' ih =>
    have hc : isWordChar c = true := h c (by simp)
    have ih' := ih (fun x hx => h x (by simp [hx]))
    show takeWordRun (c :: (nm' ++ '}' :: r)) = (c :: nm', '}' :: r)
    rw [takeWordRun, if_pos hc, ih']

theorem takeNameRun_exact (nm : List Char) (c0 : Char) (r : List Char)
    (h : ∀ c ∈ nm, isEnvNameChar c = true) (hc0 : isEnvNameChar c0 = false) :
    takeNameRun (nm ++ c0 :: r) = (nm, c0 :: r) := by
  induction nm with
  | nil =>
    show takeNameRun (c0 :: r) = ([], c0 :: r)
    rw [takeNameRun, if_neg (by simp [hc0])]
  | cons c nm' ih =>
    have hc : isEnvNameChar c = true := h c (by simp)
    have ih' := ih (fun x hx => h x (by simp [hx]))
    show takeNameRun (c :: (nm' ++ c0 :: r)) = (c :: nm', c0 :: r)
    rw [takeNameRun, if_pos hc, ih']

theorem takeDefRun_exact (df : List Char) (r : List Char)
    (h : ∀ c ∈ df, isEnvDefChar c = true) :
    takeDefRun (df ++ '}' :: r) = (df, '}' :: r) := by
  induction df with
  | nil =>
    show takeDefRun ('}' :: r) = ([], '}' :: r)
    rw [takeDefRun, if_neg (by decide)]
  | cons c df' ih =>
    have hc : isEnvDefChar c = true := h c (by simp)
    have ih' := ih (fun x hx => h x (by simp [hx]))
    show takeDefRun (c :: (df' ++ '}' :: r)) = (c :: df', '}' :: r)
    rw [takeDefRun, if_pos hc, ih']

theorem matchVarAt_varRef (lookup : String → Option String) (c0 : Char) (nm' : List Char)
    (hw : ∀ c ∈ c0 :: nm', isWordChar c = true) :
    matchVarAt lookup (varRefText (c0 :: nm')) = some (varReplacement lookup (c0 :: nm'), []) := by
  have ht : takeWordRun ((c0 :: nm') ++ '}' :: '}' :: []) = (c0 :: nm', '}' :: '}' :: []) :=
    takeWordRun_exact (c0 :: nm') ('}' :: []) hw
  show matchVarAt lookup ('{' :: '{' :: ((c0 :: nm') ++ '}' :: '}' :: [])) = _
  simp only [matchVarAt]
  rw [ht]
  rfl

theorem varScan_varRef (lookup : String → Option String) (c0 : Char) (nm' : List Char)
    (hw : ∀ c ∈ c0 :: nm', isWordChar c = true) :
    varScan lookup (varRefText (c0 :: nm')) = varReplacement lookup (c0 :: nm') := by
  have hm := matchVarAt_varRef lookup c0 nm' hw
  show varScan lookup ('{' :: ('{' :: ((c0 :: nm') ++ '}' :: '}' :: []))) = _
  rw [varScan_cons_some lookup _ _ _ _ hm, varScan_nil, List.append_nil]

theorem matchEnvAt_ref (env : ProcEnv) (lookup : String → Option String)
    (c0 : Char) (nm' : List Char) (df : Option (List Char))
    (hn : ∀ c ∈ c0 :: nm', isEnvNameChar c = true)
    (hd : ∀ d, df = some d → ∀ c ∈ d, isEnvDefChar c = true) :
    matchEnvAt env lookup (envRefText (c0 :: nm') df) =
      some (envResolve env lookup (c0 :: nm') df, []) := by
  cases df with
  | none =>
    have ht : takeNameRun ((c0 :: nm') ++ '}' :: []) = (c0 :: nm', '}' :: []) :=
      takeNameRun_exact (c0 :: nm') '}' [] hn (by decide)
    show matchEnvAt env lookup ('$' :: '{' :: ((c0 :: nm') ++ '}' :: [])) = _
    simp only [matchEnvAt]
    rw [ht]
    rfl
  | some d =>
    have ht : takeNameRun ((c0 :: nm') ++ ':' :: (d ++ ['}'])) = (c0 :: nm', ':' :: (d ++ ['}'])) :=
      takeNameRun_exact (c0 :: nm') ':' (d ++ ['}']) hn (by decide)
    have htd : takeDefRun (d ++ ['}']) = (d, ['}']) :=
      takeDefRun_exact d [] (hd d rfl)
    show matchEnvAt env lookup ('$' :: '{' :: ((c0 :: nm') ++ ':' :: (d ++ ['}']))) = _
    simp only [matchEnvAt]
    rw [ht]
    show (match takeDefRun (d ++ ['}']) with
      | (df', '}' :: rest2) => some (envResolve env lookup (c0 :: nm') (some df'), rest2)
      | (_, _) => none) = _
    rw [htd]
    rfl

theorem hasVarStart_of_all_ne : ∀ l : List Char, (∀ c ∈ l, c ≠ '{') → hasVarStart l = false := by
  intro l
  induction l with
  | nil => intro _; rfl
  | cons c t ih =>
    intro h
    have hc : c ≠ '{' := h c (by simp)
    have ih' := ih (fun x hx => h x (by simp [hx]))
    cases t with
    | nil => simp [hasVarStart]
    | cons d t' =>
      rw [show hasVarStart (c :: d :: t') =
          ((c == '{' && d == '{') || hasVarStart (d :: t')) from rfl]
      rw [ih']
      simp [hc]

theorem hasEnvStart_of_all_ne : ∀ l : List Char, (∀ c ∈ l, c ≠ '$') → hasEnvStart l = false := by
  intro l
  induction l with
  | nil => intro _; rfl
  | cons c t ih =>
    intro h
    have hc : c ≠ '$' := h c (by simp)
    have ih' := ih (fun x hx => h x (by simp [hx]))
    cases t with
    | nil => simp [hasEnvStart]
    | cons d t' =>
      rw [show hasEnvStart (c :: d :: t') =
          ((c == '$' && d == '{') || hasEnvStart (d :: t')) from rfl]
      rw [ih']
      simp [hc]

theorem hasVarStart_dollarBrace (rest : List Char) (hne : rest ≠ [])
    (h : ∀ c ∈ rest, c ≠ '{') :
    hasVarStart ('$' :: '{' :: rest) = false := by
  cases rest with
  | nil => cases hne rfl
  | cons c0 r =>
    have h0 : c0 ≠ '{' := h c0 (by simp)
    have hr : hasVarStart (c0 :: r) = false := hasVarStart_of_all_ne _ h
    rw [show hasVarStart ('$' :: '{' :: c0 :: r) =
        (('$' == '{' && '{' == '{') || hasVarStart ('{' :: c0 :: r)) from rfl]
    rw [show hasVarStart ('{' :: c0 :: r) =
        (('{' == '{' && c0 == '{') || hasVarStart (c0 :: r)) from rfl]
    rw [hr]
    simp [h0]

theorem word_ne_dollar {c : Char} (h : isWordChar c = true) : c ≠ '$' := by
  intro heq
  subst heq
  exact absurd h (by decide)

theorem hasEnvStart_varRef (nm : List Char) (hw : ∀ c ∈ nm, isWordChar c = true) :
    hasEnvStart (varRefText nm) = false := by
  apply hasEnvStart_of_all_ne
  intro c hc
  simp [varRefText] at hc
  rcases hc with h | h | h
  · subst h; decide
  · exact word_ne_dollar (hw c h)
  · subst h; decide

theorem substituteVariables_id (env : ProcEnv) (ctx : VariableContext) (text : String)
    (h1 : hasVarStart text.data = false) (h2 : hasEnvStart text.data = false) :
    substituteVariables env ctx text = text := by
  unfold substituteVariables
  rw [varScan_id _ _ h1, envScan_id _ _ _ h2]

theorem varRef_data (name : String) :
    ("\x7b\x7b" ++ name ++ "\x7d\x7d").data = varRefText name.data := by
  simp [varRefText, String.data_append]

theorem varReplacement_bound (ctx : VariableContext) (name v : String)
    (hb : lookupVar ctx name = some v) (c0 : Char) (nm' : List Char)
    (hnm : name.data = c0 :: nm') :
    varReplacement (lookupVar ctx) (c0 :: nm') = v.data := by
  unfold varReplacement
  rw [show String.mk (c0 :: nm') = name from by rw [← hnm]]
  rw [hb]

theorem varReplacement_unbound (ctx : VariableContext) (name : String)
    (hb : lookupVar ctx name = none) (c0 : Char) (nm' : List Char)
    (hnm : name.data = c0 :: nm') :
    varReplacement (lookupVar ctx) (c0 :: nm') = varRefText (c0 :: nm') := by
  unfold varReplacement
  rw [show String.mk (c0 :: nm') = name from by rw [← hnm]]
  rw [hb]

theorem envScan_ref (env : ProcEnv) (lookup : String → Option String)
    (c0 : Char) (nm' : List Char) (df : Option (List Char))
    (hn : ∀ c ∈ c0 :: nm', isEnvNameChar c = true)
    (hd : ∀ d, df = some d → ∀ c ∈ d, isEnvDefChar c = true) :
    envScan env lookup (envRefText (c0 :: nm') df) = envResolve env lookup (c0 :: nm') df := by
  have hm := matchEnvAt_ref env lookup c0 nm' df hn hd
  cases df with
  | none =>
    show envScan env lookup ('$' :: ('{' :: ((c0 :: nm') ++ '}' :: []))) = _
    rw [envScan_cons_some env lookup _ _ _ _ hm, envScan_nil, List.append_nil]
  | some d =>
    show envScan env lookup ('$' :: ('{' :: ((c0 :: nm') ++ ':' :: (d ++ ['}'])))) = _
    rw [envScan_cons_some env lookup _ _ _ _ hm, envScan_nil, List.append_nil]

theorem mk_data (s : String) : String.mk s.data = s := rfl

theorem envResolve_getD (env : ProcEnv) (ctx : VariableContext) (X d : String)
    (c0 : Char) (nm' : List Char) (hX : X.data = c0 :: nm') :
    String.mk (envResolve env (lookupVar ctx) (c0 :: nm') (some d.data)) =
      (envVarLookup env X).getD ((lookupVar ctx X).getD d) := by
  unfold envResolve
  rw [show String.mk (c0 :: nm') = X from by rw [← hX]]
  cases hEnv : envVarLookup env X
  · cases hCtx : lookupVar ctx X
    · simp [mk_data]
    · simp [mk_data]
  · simp [mk_data]

theorem envResolve_getD_noDefault (env : ProcEnv) (ctx : VariableContext) (X : String)
    (c0 : Char) (nm' : List Char) (hX : X.data = c0 :: nm') :
    String.mk (envResolve env (lookupVar ctx) (c0 :: nm') none) =
      (envVarLookup env X).getD ((lookupVar ctx X).getD "") := by
  unfold envResolve
  rw [show String.mk (c0 :: nm') = X from by rw [← hX]]
  cases hEnv : envVarLookup env X
  · cases hCtx : lookupVar ctx X
    · simp [mk_data]
    · simp [mk_data]
  · simp [mk_data]

/-- C2: `substitute_variables` replaces each bound `{{name}}` with the
bound value, leaves an unbound `{{name}}` untouched including the
braces, never fails (it is a total function by construction), and
applies the two syntaxes in two independent passes — variable-style
first, environment-style second over the first pass's output — so a
`{{var}}` expansion may itself contain a `${ENV:default}` pattern that
is resolved afterward, while a `${ENV:default}` expansion containing
`{{var}}` is not resolved further. -/
theorem claim_c2_substitution :
    (∀ (env : ProcEnv) (ctx : VariableContext) (text : String),
        substituteVariables env ctx text =
          String.mk (envScan env (lookupVar ctx) (varScan (lookupVar ctx) text.data)))
  ∧ (∀ (ctx : VariableContext) (name v : String), name.data ≠ [] →
      (∀ c ∈ name.data, isWordChar c = true) →
      lookupVar ctx name = some v →
      String.mk (varScan (lookupVar ctx) ("\x7b\x7b" ++ name ++ "\x7d\x7d").data) = v)
  ∧ (∀ (env : ProcEnv) (ctx : VariableContext) (name : String), name.data ≠ [] →
      (∀ c ∈ name.data, isWordChar c = true) →
      lookupVar ctx name = none →
      substituteVariables env ctx ("\x7b\x7b" ++ name ++ "\x7d\x7d") = "\x7b\x7b" ++ name ++ "\x7d\x7d")
  ∧ substituteVariables [] ⟨[("a", "$\x7bX:fallback\x7d")]⟩ "\x7b\x7ba\x7d\x7d" = "fallback"
  ∧ substituteVariables [("X", "\x7b\x7bb\x7d\x7d")] ⟨[("b", "bound")]⟩ "$\x7bX:\x7d" = "\x7b\x7bb\x7d\x7d" := by
  refine ⟨fun env ctx text => rfl, ?_, ?_, ?_, ?_⟩
  · intro ctx name v hne hw hb
    rw [varRef_data]
    cases hnm : name.data with
    | nil => exact absurd hnm hne
    | cons c0 nm' =>
      rw [varScan_varRef _ c0 nm' (fun c hc => hw c (by rw [hnm]; exact hc))]
      rw [varReplacement_bound ctx name v hb c0 nm' hnm]
  · intro env ctx name hne hw hb
    unfold substituteVariables
    rw [varRef_data]
    cases hnm : name.data with
    | nil => exact absurd hnm hne
    | cons c0 nm' =>
      rw [varScan_varRef _ c0 nm' (fun c hc => hw c (by rw [hnm]; exact hc))]
      rw [varReplacement_unbound ctx name hb c0 nm' hnm]
      rw [envScan_id _ _ _ (hasEnvStart_varRef (c0 :: nm')
        (fun c hc => hw c (by rw [hnm]; exact hc)))]
      rw [← hnm, ← varRef_data]
  · unfold substituteVariables
    rw [show ("\x7b\x7ba\x7d\x7d" : String).data = varRefText ['a'] from by decide]
    rw [varScan_varRef _ 'a' [] (by decide)]
    rw [show varReplacement (lookupVar ⟨[("a", "$\x7bX:fallback\x7d")]⟩) ['a'] =
        ("$\x7bX:fallback\x7d" : String).data from by
      unfold varReplacement
      rw [show lookupVar ⟨[("a", "$\x7bX:fallback\x7d")]⟩ (String.mk ['a']) =
          some "$\x7bX:fallback\x7d" from by decide]]
    rw [show ("$\x7bX:fallback\x7d" : String).data =
        envRefText ['X'] (some ("fallback" : String).data) from by decide]
    rw [envScan_ref _ _ 'X' [] _ (by decide) (by intro dd hdd; cases hdd; decide)]
    rw [show envResolve [] (lookupVar ⟨[("a", "$\x7bX:fallback\x7d")]⟩) ['X']
        (some ("fallback" : String).data) = ("fallback" : String).data from by decide]
  · unfold substituteVariables
    rw [varScan_id _ _ (by decide)]
    rw [show ("$\x7bX:\x7d" : String).data = envRefText ['X'] (some []) from by decide]
    rw [envScan_ref _ _ 'X' [] (some []) (by decide) (by intro dd hdd; cases hdd; decide)]
    rw [show envResolve [("X", "\x7b\x7bb\x7d\x7d")] (lookupVar ⟨[("b", "bound")]⟩) ['X'] (some []) =
        ("\x7b\x7bb\x7d\x7d" : String).data from by decide]

/-- Witness for C2 at concrete inputs: a bound name is replaced by its
value; an unbound name is left untouched with its braces. -/
theorem claim_c2_substitution_witness :
    String.mk (varScan (lookupVar ⟨[("usr", "alice")]⟩) ("\x7b\x7b" ++ "usr" ++ "\x7d\x7d").data) = "alice"
  ∧ substituteVariables [] ⟨[]⟩ ("\x7b\x7b" ++ "missing" ++ "\x7d\x7d") = "\x7b\x7b" ++ "missing" ++ "\x7d\x7d" :=
  ⟨claim_c2_substitution.2.1 ⟨[("usr", "alice")]⟩ "usr" "alice" (by decide) (by decide) (by decide),
   claim_c2_substitution.2.2.1 [] ⟨[]⟩ "missing" (by decide) (by decide) (by decide)⟩

/-- C5: an environment-style placeholder resolves from the process
environment first (regardless of the default), then from the context's
bindings, then to the literal default — the empty string when no
default is given. -/
theorem claim_c5_env_placeholder :
    ∀ (env : ProcEnv) (ctx : VariableContext) (X d : String),
    X.data ≠ [] →
    (∀ c ∈ X.data, c ≠ ':' ∧ c ≠ '}' ∧ c ≠ '{') →
    (∀ c ∈ d.data, c ≠ '}' ∧ c ≠ '{') →
    (substituteVariables env ctx ("$\x7b" ++ X ++ ":" ++ d ++ "\x7d") =
        (envVarLookup env X).getD ((lookupVar ctx X).getD d))
  ∧ (substituteVariables env ctx ("$\x7b" ++ X ++ "\x7d") =
        (envVarLookup env X).getD ((lookupVar ctx X).getD "")) := by
  intro env ctx X d hne hX hd
  constructor
  · have hdata : ("$\x7b" ++ X ++ ":" ++ d ++ "\x7d").data =
        '$' :: '{' :: (X.data ++ ':' :: (d.data ++ ['}'])) := by
      simp [String.data_append]
    unfold substituteVariables
    rw [hdata]
    rw [varScan_id _ _ (by
      apply hasVarStart_dollarBrace
      · simp
      · intro c hc
        simp [List.mem_append] at hc
        rcases hc with h | h | h | h
        · exact (hX c h).2.2
        · subst h; decide
        · exact (hd c h).2
        · subst h; decide)]
    cases hXd : X.data with
    | nil => exact absurd hXd hne
    | cons c0 nm' =>
      rw [show ('$' :: '{' :: ((c0 :: nm') ++ ':' :: (d.data ++ ['}']))) =
          envRefText (c0 :: nm') (some d.data) from rfl]
      rw [envScan_ref _ _ c0 nm' (some d.data)
        (by
          intro c hc
          have hc' : c ∈ X.data := by rw [hXd]; exact hc
          simp [isEnvNameChar, (hX c hc').1, (hX c hc').2.1])
        (by
          intro dd hdd
          cases hdd
          intro c hc
          simp [isEnvDefChar, (hd c hc).1])]
      exact envResolve_getD env ctx X d c0 nm' hXd
  · have hdata : ("$\x7b" ++ X ++ "\x7d").data = '$' :: '{' :: (X.data ++ ['}']) := by
      simp [String.data_append]
    unfold substituteVariables
    rw [hdata]
    rw [varScan_id _ _ (by
      apply hasVarStart_dollarBrace
      · simp
      · intro c hc
        simp [List.mem_append] at hc
        rcases hc with h | h
        · exact (hX c h).2.2
        · subst h; decide)]
    cases hXd : X.data with
    | nil => exact absurd hXd hne
    | cons c0 nm' =>
      rw [show ('$' :: '{' :: ((c0 :: nm') ++ ['}'])) =
          envRefText (c0 :: nm') none from rfl]
      rw [envScan_ref _ _ c0 nm' none
        (by
          intro c hc
          have hc' : c ∈ X.data := by rw [hXd]; exact hc
          simp [isEnvNameChar, (hX c hc').1, (hX c hc').2.1])
        (by intro dd hdd; cases hdd)]
      exact envResolve_getD_noDefault env ctx X c0 nm' hXd

/-- Witness for C5 at concrete inputs: the environment wins over both
the context binding and the default; with neither, the default wins. -/
theorem claim_c5_env_placeholder_witness :
    substituteVariables [("PATH", "/bin")] ⟨[("PATH", "ctxval")]⟩ ("$\x7b" ++ "PATH" ++ ":" ++ "dflt" ++ "\x7d")
      = "/bin"
  ∧ substituteVariables [] ⟨[]⟩ ("$\x7b" ++ "MISSING" ++ ":" ++ "dflt" ++ "\x7d") = "dflt" := by
  constructor
  · have h := (claim_c5_env_placeholder [("PATH", "/bin")] ⟨[("PATH", "ctxval")]⟩
      "PATH" "dflt" (by decide) (by decide) (by decide)).1
    rw [h]
    decide
  · have h := (claim_c5_env_placeholder [] ⟨[]⟩ "MISSING" "dflt"
      (by decide) (by decide) (by decide)).1
    rw [h]
    decide

/-! ## Claims about the request executor -/

/-- C3: `execute_test` always returns a `TestResult` and never raises
(it is a total function of the request outcome); a network/timeout
failure — the `Err` branch of `execute_request` — yields a failed
result with `response_status = none`; with no expectation supplied the
result passes iff the HTTP status is strictly below 400; and every
failed result carries an error description. -/
theorem claim_c3_execute_total :
    ∀ (env : ProcEnv) (ctx : VariableContext) (parseJson : String → Option Json)
      (name : String) (outcome : HttpOutcome) (expectation : Option Expectation),
    (∀ msg, outcome = HttpOutcome.reqError msg →
        executeTest env ctx parseJson name outcome expectation =
          { name := name, passed := false, error := some msg
            response_status := none, response_body := none })
  ∧ (∀ st body, outcome = HttpOutcome.response st body → expectation = none →
        ((executeTest env ctx parseJson name outcome expectation).passed = true ↔ st < 400))
  ∧ ((executeTest env ctx parseJson name outcome expectation).passed = false →
        (executeTest env ctx parseJson name outcome expectation).error ≠ none) := by
  intro env ctx parseJson name outcome expectation
  refine ⟨?_, ?_, ?_⟩
  · intro msg h
    subst h
    rfl
  · intro st body h1 h2
    subst h1
    subst h2
    simp [executeTest]
  · intro h
    cases outcome with
    | reqError msg => simp [executeTest]
    | bodyError st msg => simp [executeTest]
    | response st body =>
      cases expectation with
      | none =>
        simp only [executeTest] at h ⊢
        have h400 : ¬ st < 400 := by simpa using h
        simp [Nat.not_lt.mp h400]
      | some e =>
        cases hv : validateResponse env ctx parseJson st body e with
        | ok u => simp [executeTest, hv] at h
        | error m => simp [executeTest, hv]

/-- Witness for C3: a timeout yields a failed result with no status;
with no expectation a 404 fails the `status < 400` test. -/
theorem claim_c3_execute_total_witness :
    executeTest [] ⟨[]⟩ (fun _ => none) "step" (HttpOutcome.reqError "connection timed out") none =
      { name := "step", passed := false, error := some "connection timed out"
        response_status := none, response_body := none }
  ∧ ((executeTest [] ⟨[]⟩ (fun _ => none) "step" (HttpOutcome.response 404 "") none).passed = true
      ↔ 404 < 400) :=
  ⟨(claim_c3_execute_total [] ⟨[]⟩ (fun _ => none) "step"
      (HttpOutcome.reqError "connection timed out") none).1 "connection timed out" rfl,
   (claim_c3_execute_total [] ⟨[]⟩ (fun _ => none) "step"
      (HttpOutcome.response 404 "") none).2.1 404 "" rfl rfl⟩

/-- Head test for the `$[` root-array branch of
`extract_jsonpath_value`. -/
def isRootIdx : List Char → Bool
  | c1 :: c2 :: _ => c1 == '$' && c2 == '['
  | _ => false

theorem extractJsonpath_not_rootIdx (j : Json) (path : List Char)
    (h : isRootIdx path = false) :
    extractJsonpath j path = extractParts j (splitOnChar '.' (stripDollarDot path)) := by
  match path with
  | [] =>
    rw [extractJsonpath]
    simp
  | [c] =>
    rw [extractJsonpath]
    simp
  | c1 :: c2 :: t =>
    have hcd : ¬(c1 = '$' ∧ c2 = '[') := by
      intro hand
      obtain ⟨rfl, rfl⟩ := hand
      simp [isRootIdx] at h
    rw [extractJsonpath]
    simp [hcd]

/-- C4: in `validate_jsonpath`, a string-valued expected value is first
template-substituted, then coerced — integer first, then boolean, else
left a string — before the equality comparison, and the coercion is
applied only to the expected side: the actual value extracted from the
response is compared unmodified. -/
theorem claim_c4_expected_coercion :
    ∀ (env : ProcEnv) (ctx : VariableContext) (j : Json) (path : String) (expected : Json),
    (∀ actual, extractJsonpath j path.data = Except.ok actual →
        validateJsonpath env ctx j path expected =
          (if Json.beq actual (coerceExpected env ctx expected) then Except.ok ()
           else Except.error ("JSONPath assertion failed for '" ++ path ++ "'")))
  ∧ (∀ s n, parseI64 (substituteVariables env ctx s) = some n →
        coerceExpected env ctx (Json.str s) = Json.num n)
  ∧ (∀ s b, parseI64 (substituteVariables env ctx s) = none →
        parseBoolStr (substituteVariables env ctx s) = some b →
        coerceExpected env ctx (Json.str s) = Json.bool b)
  ∧ (∀ s, parseI64 (substituteVariables env ctx s) = none →
        parseBoolStr (substituteVariables env ctx s) = none →
        coerceExpected env ctx (Json.str s) = Json.str (substituteVariables env ctx s))
  ∧ ((∀ s, expected ≠ Json.str s) → coerceExpected env ctx expected = expected) := by
  intro env ctx j path expected
  refine ⟨?_, ?_, ?_, ?_, ?_⟩
  · intro actual hex
    simp [validateJsonpath, hex]
  · intro s n h
    simp [coerceExpected, h]
  · intro s b h1 h2
    simp [coerceExpected, h1, h2]
  · intro s h1 h2
    simp [coerceExpected, h1, h2]
  · intro hns
    cases expected with
    | str s => exact absurd rfl (hns s)
    | null => rfl
    | bool b => rfl
    | num n => rfl
    | arr xs => rfl
    | obj fs => rfl

/-- Witness for C4: against `{"x": 7}`, the expected string `"7"` is
coerced to the integer 7 and the assertion passes; the actual side is
the unmodified extracted value. -/
theorem claim_c4_expected_coercion_witness :
    validateJsonpath [] ⟨[]⟩ (Json.obj [("x", Json.num 7)]) "$.x" (Json.str "7") = Except.ok ()
  ∧ coerceExpected [] ⟨[]⟩ (Json.str "7") = Json.num 7 := by
  have hsub : substituteVariables [] ⟨[]⟩ "7" = "7" :=
    substituteVariables_id [] ⟨[]⟩ "7" (by decide) (by decide)
  have hcoe : coerceExpected [] ⟨[]⟩ (Json.str "7") = Json.num 7 :=
    (claim_c4_expected_coercion [] ⟨[]⟩ (Json.obj [("x", Json.num 7)]) "$.x" (Json.str "7")).2.1
      "7" 7 (by rw [hsub]; decide)
  have hex : extractJsonpath (Json.obj [("x", Json.num 7)]) ("$.x" : String).data =
      Except.ok (Json.num 7) := by
    rw [extractJsonpath_not_rootIdx _ _ (by decide)]
    rfl
  constructor
  · rw [(claim_c4_expected_coercion [] ⟨[]⟩ (Json.obj [("x", Json.num 7)]) "$.x"
      (Json.str "7")).1 (Json.num 7) hex]
    rw [hcoe]
    rfl
  · exact hcoe

/-! ## Claim about the load controller -/

/-- C10: `request_delay` is total.  When a target RPS is configured it
returns `some` delay without panicking even when `current_target_rps()`
is 0 — as for the `RampUp` pattern at elapsed 0 — where the IEEE
division `1000.0 / 0.0` yields +∞ and the saturating cast turns it into
the effectively unbounded delay `u64::MAX` milliseconds; when no target
RPS is configured it returns `none`. -/
theorem claim_c10_request_delay :
    ∀ (c : LoadController) (elapsed : ℚ),
    (c.target_rps = none → requestDelay c elapsed = none)
  ∧ (∀ r, c.target_rps = some r →
        requestDelay c elapsed = some (divMillisToU64 (currentTargetRps c elapsed)))
  ∧ (c.pattern = LoadPattern.RampUp → 0 < c.warmup_duration → c.target_rps ≠ none →
        currentTargetRps c 0 = 0 ∧ requestDelay c 0 = some (U64 - 1)) := by
  intro c elapsed
  refine ⟨?_, ?_, ?_⟩
  · intro h
    simp [requestDelay, h]
  · intro r h
    simp [requestDelay, h]
  · intro hp hw ht
    have hcur : currentTargetRps c 0 = 0 := by
      simp [currentTargetRps, hp, hw]
    refine ⟨hcur, ?_⟩
    obtain ⟨r, hr⟩ := Option.ne_none_iff_exists'.mp ht
    simp [requestDelay, hr, hcur, divMillisToU64]

/-- Witness for C10: no configured target gives no delay; `RampUp` with
a 10-second warmup at elapsed 0 gives target RPS 0 and the saturated
maximal delay. -/
theorem claim_c10_request_delay_witness :
    requestDelay ⟨LoadPattern.Constant, none, 5, 0⟩ 3 = none
  ∧ currentTargetRps ⟨LoadPattern.RampUp, some 100, 5, 10⟩ 0 = 0
  ∧ requestDelay ⟨LoadPattern.RampUp, some 100, 5, 10⟩ 0 = some (U64 - 1) := by
  refine ⟨(claim_c10_request_delay ⟨LoadPattern.Constant, none, 5, 0⟩ 3).1 rfl, ?_, ?_⟩
  · exact ((claim_c10_request_delay ⟨LoadPattern.RampUp, some 100, 5, 10⟩ 0).2.2
      rfl (by norm_num) (by simp)).1
  · exact ((claim_c10_request_delay ⟨LoadPattern.RampUp, some 100, 5, 10⟩ 0).2.2
      rfl (by norm_num) (by simp)).2

/-! ## Claims about the performance metrics -/

/-- C6: with a non-empty sample multiset, `calculate_results` indexes
the ascending sorted copy of the samples at `floor(len * p / 100)` for
each percentile, with no interpolation, and the average is the integer
nanosecond mean of the samples. -/
theorem claim_c6_percentiles :
    ∀ (m : PerformanceMetrics), m.response_times ≠ [] →
    ∀ sorted : List Nat, sorted.Perm m.response_times → List.Sorted (· ≤ ·) sorted →
    ((calculateResults m).p50_response_time = sorted.getD (sorted.length * 50 / 100) 0
  ∧ (calculateResults m).p95_response_time = sorted.getD (sorted.length * 95 / 100) 0
  ∧ (calculateResults m).p99_response_time = sorted.getD (sorted.length * 99 / 100) 0)
  ∧ (m.response_times.sum / m.response_times.length < U64 →
      (calculateResults m).average_response_time
        = m.response_times.sum / m.response_times.length) := by
  intro m hne sorted hperm hsort
  have hins : List.insertionSort (· ≤ ·) m.response_times = sorted :=
    List.eq_of_perm_of_sorted ((List.perm_insertionSort _ _).trans hperm.symm)
      (List.sorted_insertionSort _ _) hsort
  have hisEmpty : m.response_times.isEmpty = false := by
    cases hrt : m.response_times with
    | nil => exact absurd hrt hne
    | cons a l => simp
  constructor
  · refine ⟨?_, ?_, ?_⟩ <;> simp [calculateResults, hisEmpty, hins]
  · intro hlt
    have hsum : sorted.sum = m.response_times.sum := hperm.sum_eq
    have hlen : sorted.length = m.response_times.length := hperm.length_eq
    simp only [calculateResults, hisEmpty, hins]
    simp [hsum, hlen, Nat.mod_eq_of_lt hlt]

/-- Witness for C6 at concrete samples `[300, 100, 200]`: the sorted
copy is `[100, 200, 300]`, p50 is its element 1, p95 and p99 its
element 2, and the average is 200. -/
theorem claim_c6_percentiles_witness :
    ((calculateResults m6).p50_response_time = 200
  ∧ (calculateResults m6).p95_response_time = 300
  ∧ (calculateResults m6).p99_response_time = 300)
  ∧ (calculateResults m6).average_response_time = 200 := by
  have h := claim_c6_percentiles m6 (by decide) [100, 200, 300] (by decide) (by decide)
  refine ⟨⟨?_, ?_, ?_⟩, ?_⟩
  · rw [h.1.1]; decide
  · rw [h.1.2.1]; decide
  · rw [h.1.2.2]; decide
  · rw [h.2 (by decide)]; decide

/-- One-step count increase of `applyOp`. -/
theorem applyOp_counts (m : PerformanceMetrics) (op : MetricOp) :
    (applyOp m op).request_count + (applyOp m op).connection_errors
      = m.request_count + m.connection_errors + 1 := by
  cases op with
  | request rt st bs br isErr => simp [applyOp, recordRequest]; omega
  | connError => simp [applyOp, recordConnectionError]; omega

/-- One-step preservation of the metrics bookkeeping invariant. -/
theorem applyOp_inv (m : PerformanceMetrics) (op : MetricOp)
    (h : m.response_times.length = m.request_count
      ∧ m.error_count ≤ m.request_count + m.connection_errors
      ∧ (m.request_count = 0 → m.error_count = m.connection_errors)) :
    (applyOp m op).response_times.length = (applyOp m op).request_count
  ∧ (applyOp m op).error_count ≤ (applyOp m op).request_count + (applyOp m op).connection_errors
  ∧ ((applyOp m op).request_count = 0
      → (applyOp m op).error_count = (applyOp m op).connection_errors) := by
  obtain ⟨h1, h2, h3⟩ := h
  cases op with
  | request rt st bs br isErr =>
    refine ⟨?_, ?_, ?_⟩
    · simp [applyOp, recordRequest, h1]
    · cases isErr <;> simp [applyOp, recordRequest] <;> omega
    · simp [applyOp, recordRequest]
  | connError =>
    refine ⟨?_, ?_, ?_⟩
    · simp [applyOp, recordConnectionError, h1]
    · simp [applyOp, recordConnectionError]; omega
    · simp [applyOp, recordConnectionError]
      intro h0
      rw [h3 h0]

/-- The bookkeeping invariant and the count law for a whole operation
sequence, by fold induction. -/
theorem foldl_metrics :
    ∀ (ops : List MetricOp) (m : PerformanceMetrics),
    (m.response_times.length = m.request_count
      ∧ m.error_count ≤ m.request_count + m.connection_errors
      ∧ (m.request_count = 0 → m.error_count = m.connection_errors)) →
    ((ops.foldl applyOp m).request_count + (ops.foldl applyOp m).connection_errors
        = m.request_count + m.connection_errors + ops.length)
  ∧ ((ops.foldl applyOp m).response_times.length = (ops.foldl applyOp m).request_count
      ∧ (ops.foldl applyOp m).error_count
          ≤ (ops.foldl applyOp m).request_count + (ops.foldl applyOp m).connection_errors
      ∧ ((ops.foldl applyOp m).request_count = 0
          → (ops.foldl applyOp m).error_count = (ops.foldl applyOp m).connection_errors)) := by
  intro ops
  induction ops with
  | nil =>
    intro m h
    exact ⟨by simp, h⟩
  | cons op rest ih =>
    intro m h
    have hstep := applyOp_inv m op h
    have hrec := ih (applyOp m op) hstep
    refine ⟨?_, hrec.2⟩
    have hc := applyOp_counts m op
    simp only [List.foldl_cons, List.length_cons]
    omega

/-- C9: for every recorded operation sequence, the snapshot computed by
`calculate_results` satisfies
`successful_requests + failed_requests = total_requests`, where
`total_requests = request_count + connection_errors` and
`failed_requests = error_count`.  The u64 bound on the sequence length
keeps the embedded wrapping arithmetic aligned with the machine
counters. -/
theorem claim_c9_success_invariant :
    ∀ ops : List MetricOp, ops.length < U64 →
    ((calculateResults (runOps ops)).successful_requests
        + (calculateResults (runOps ops)).failed_requests
      = (calculateResults (runOps ops)).total_requests)
  ∧ (calculateResults (runOps ops)).total_requests
      = (runOps ops).request_count + (runOps ops).connection_errors
  ∧ (calculateResults (runOps ops)).failed_requests = (runOps ops).error_count := by
  intro ops hlen
  have hfold := foldl_metrics ops PerformanceMetrics.init
    (by simp [PerformanceMetrics.init])
  have hruns : runOps ops = ops.foldl applyOp PerformanceMetrics.init := rfl
  rw [← hruns] at hfold
  have hcount := hfold.1
  have hrts := hfold.2.1
  have herr := hfold.2.2.1
  have hzero := hfold.2.2.2
  simp only [PerformanceMetrics.init] at hcount
  cases hE : (runOps ops).response_times.isEmpty
  · -- non-empty samples: the wrapping subtraction stays below 2^64
    have hrc : (runOps ops).request_count + (runOps ops).connection_errors < U64 := by
      omega
    refine ⟨?_, by simp [calculateResults, hE], by simp [calculateResults, hE]⟩
    simp only [calculateResults, hE, Bool.false_eq_true, if_false, wrapSub64]
    simp only [U64] at hrc herr ⊢
    omega
  · -- empty samples: no requests were recorded, so all errors are
    -- connection errors
    have hrc0 : (runOps ops).request_count = 0 := by
      rw [← hrts]
      simp [List.isEmpty_iff.mp hE]
    have hec := hzero hrc0
    refine ⟨?_, by simp [calculateResults, hE], by simp [calculateResults, hE]⟩
    simp [calculateResults, hE, hrc0, hec]

/-- Witness for C9: one successful request plus one connection error
gives 1 successful, 1 failed, 2 total. -/
theorem claim_c9_success_invariant_witness :
    (calculateResults (runOps [MetricOp.request 100 200 10 20 false, MetricOp.connError])).successful_requests
      + (calculateResults (runOps [MetricOp.request 100 200 10 20 false, MetricOp.connError])).failed_requests
    = (calculateResults (runOps [MetricOp.request 100 200 10 20 false, MetricOp.connError])).total_requests :=
  (claim_c9_success_invariant [MetricOp.request 100 200 10 20 false, MetricOp.connError]
    (by decide)).1

/-! ## Claims about the test runner -/

/-- C1 is refuted as stated: with bail enabled, a failing setup step
does not stop the remaining setup steps, and a failing dataset row does
not stop the following rows.  Here setup step `s1` fails, yet `s2` is
still dispatched; the test step fails on dataset row 0, yet row 1 is
still dispatched. -/
theorem claim_c1_counterexample :
    runSingleSuite true none 1 cfgC1 oracleC1 =
      [("Setup: s1", false), ("Setup: s2", true), ("t1", false), ("t1", true)] := by
  decide

theorem runStepsSeq_cons_true (oracle : String → Bool) (s : String) (rest : List String)
    (ho : oracle s = true) :
    runStepsSeq true oracle (s :: rest) = (s, true) :: runStepsSeq true oracle rest := by
  simp [runStepsSeq, ho]

theorem runStepsSeq_cons_false (oracle : String → Bool) (s : String) (rest : List String)
    (ho : oracle s = false) :
    runStepsSeq true oracle (s :: rest) = [(s, false)] := by
  simp [runStepsSeq, ho]

theorem runStepsSeq_dropLast (oracle : String → Bool) :
    ∀ steps : List String, ∀ r ∈ (runStepsSeq true oracle steps).dropLast, r.2 = true := by
  intro steps
  induction steps with
  | nil =>
    intro r hr
    simp [runStepsSeq] at hr
  | cons s rest ih =>
    intro r hr
    cases ho : oracle s with
    | false =>
      rw [runStepsSeq_cons_false oracle s rest ho] at hr
      simp at hr
    | true =>
      rw [runStepsSeq_cons_true oracle s rest ho] at hr
      cases hrec : runStepsSeq true oracle rest with
      | nil =>
        rw [hrec] at hr
        simp at hr
      | cons a l =>
        rw [hrec, List.dropLast_cons₂] at hr
        rcases List.mem_cons.mp hr with h1 | h1
        · rw [h1]
        · rw [← hrec] at h1
          exact ih r h1

theorem collectChunk_cons_true (oracle : String → Bool) (s : String) (rest : List String)
    (ho : oracle s = true) :
    collectChunk true oracle (s :: rest) =
      ((s, true) :: (collectChunk true oracle rest).1, (collectChunk true oracle rest).2) := by
  simp [collectChunk, ho]

theorem collectChunk_cons_false (oracle : String → Bool) (s : String) (rest : List String)
    (ho : oracle s = false) :
    collectChunk true oracle (s :: rest) = ([(s, false)], true) := by
  simp [collectChunk, ho]

theorem collectChunk_dropLast (oracle : String → Bool) :
    ∀ c : List String, ∀ r ∈ (collectChunk true oracle c).1.dropLast, r.2 = true := by
  intro c
  induction c with
  | nil =>
    intro r hr
    simp [collectChunk] at hr
  | cons s rest ih =>
    intro r hr
    cases ho : oracle s with
    | false =>
      rw [collectChunk_cons_false oracle s rest ho] at hr
      simp at hr
    | true =>
      rw [collectChunk_cons_true oracle s rest ho] at hr
      cases hrec : (collectChunk true oracle rest).1 with
      | nil =>
        rw [hrec] at hr
        simp at hr
      | cons a l =>
        rw [hrec, List.dropLast_cons₂] at hr
        rcases List.mem_cons.mp hr with h1 | h1
        · rw [h1]
        · rw [← hrec] at h1
          exact ih r h1

theorem collectChunk_all_pass (oracle : String → Bool) :
    ∀ c : List String, (collectChunk true oracle c).2 = false →
      ∀ r ∈ (collectChunk true oracle c).1, r.2 = true := by
  intro c
  induction c with
  | nil =>
    intro _ r hr
    simp [collectChunk] at hr
  | cons s rest ih =>
    intro hb r hr
    cases ho : oracle s with
    | false =>
      rw [collectChunk_cons_false oracle s rest ho] at hb
      simp at hb
    | true =>
      rw [collectChunk_cons_true oracle s rest ho] at hb hr
      rcases List.mem_cons.mp hr with h1 | h1
      · rw [h1]
      · exact ih hb r h1

theorem mem_dropLast_append {α : Type} (a b : List α) (x : α)
    (h : x ∈ (a ++ b).dropLast) : x ∈ a ∨ x ∈ b.dropLast := by
  cases b with
  | nil =>
    simp only [List.append_nil] at h
    exact Or.inl ((List.dropLast_sublist a).subset h)
  | cons y bs =>
    rw [List.dropLast_append_of_ne_nil a (by simp)] at h
    rcases List.mem_append.mp h with h1 | h1
    · exact Or.inl h1
    · exact Or.inr h1

theorem runStepChunks_dropLast (oracle : String → Bool) :
    ∀ cs : List (List String), ∀ r ∈ (runStepChunks true oracle cs).dropLast, r.2 = true := by
  intro cs
  induction cs with
  | nil =>
    intro r hr
    simp [runStepChunks] at hr
  | cons c cs' ih =>
    intro r hr
    simp only [runStepChunks] at hr
    cases hb : (collectChunk true oracle c).2 with
    | true =>
      simp only [hb, if_true] at hr
      rw [List.append_nil] at hr
      exact collectChunk_dropLast oracle c r hr
    | false =>
      simp only [hb, if_false] at hr
      rcases mem_dropLast_append _ _ _ hr with h1 | h1
      · exact collectChunk_all_pass oracle c hb r h1
      · exact ih r h1

theorem runTestSteps_dropLast (f : Option String) (oracle : String → Bool)
    (steps : List String) (par : Nat) :
    ∀ r ∈ (runTestSteps true f oracle steps par).dropLast, r.2 = true := by
  intro r hr
  unfold runTestSteps at hr
  split at hr
  · exact runStepsSeq_dropLast oracle _ r hr
  · exact runStepChunks_dropLast oracle _ r hr

theorem runSuitesSequential_dropLast (f : Option String) (par : Nat) (oracle : SuiteOracle) :
    ∀ suites : List (String × RivetConfig),
      ∀ sr ∈ (runSuitesSequential true f par oracle suites).dropLast, sr.failed = 0 := by
  intro suites
  induction suites with
  | nil =>
    intro sr h
    simp [runSuitesSequential] at h
  | cons s rest ih =>
    obtain ⟨n, cfg⟩ := s
    intro sr h
    simp only [runSuitesSequential] at h
    split at h
    · simp at h
    · rename_i hcond
      have hfail : (mkSuiteResult n (runSingleSuite true f par cfg (oracle n))).failed = 0 := by
        simp at hcond
        omega
      cases hrec : runSuitesSequential true f par oracle rest with
      | nil =>
        rw [hrec] at h
        simp at h
      | cons a l =>
        rw [hrec, List.dropLast_cons₂] at h
        rcases List.mem_cons.mp h with h1 | h1
        · rw [h1]
          exact hfail
        · rw [← hrec] at h1
          exact ih sr h1

theorem collectSuiteChunk_dropLast (f : Option String) (oracle : SuiteOracle) :
    ∀ chunk : List (String × RivetConfig),
      ∀ sr ∈ (collectSuiteChunk true f oracle chunk).1.dropLast, sr.failed = 0 := by
  intro chunk
  induction chunk with
  | nil =>
    intro sr h
    simp [collectSuiteChunk] at h
  | cons s rest ih =>
    obtain ⟨n, cfg⟩ := s
    intro sr h
    simp only [collectSuiteChunk] at h
    split at h
    · simp at h
    · rename_i hcond
      have hfail : (mkSuiteResult n (runSingleSuite true f 1 cfg (oracle n))).failed = 0 := by
        simp at hcond
        omega
      cases hrec : (collectSuiteChunk true f oracle rest).1 with
      | nil =>
        rw [hrec] at h
        simp at h
      | cons a l =>
        rw [hrec, List.dropLast_cons₂] at h
        rcases List.mem_cons.mp h with h1 | h1
        · rw [h1]
          exact hfail
        · rw [← hrec] at h1
          exact ih sr h1

theorem collectSuiteChunk_all_pass (f : Option String) (oracle : SuiteOracle) :
    ∀ chunk : List (String × RivetConfig),
      (collectSuiteChunk true f oracle chunk).2 = false →
      ∀ sr ∈ (collectSuiteChunk true f oracle chunk).1, sr.failed = 0 := by
  intro chunk
  induction chunk with
  | nil =>
    intro _ sr h
    simp [collectSuiteChunk] at h
  | cons s rest ih =>
    obtain ⟨n, cfg⟩ := s
    intro hb sr h
    simp only [collectSuiteChunk] at h hb
    split at h
    · rename_i hcond
      rw [if_pos hcond] at hb
      simp at hb
    · rename_i hcond
      rw [if_neg hcond] at hb
      have hfail : (mkSuiteResult n (runSingleSuite true f 1 cfg (oracle n))).failed = 0 := by
        simp at hcond
        omega
      rcases List.mem_cons.mp h with h1 | h1
      · rw [h1]
        exact hfail
      · exact ih hb sr h1

theorem runSuiteChunks_dropLast (f : Option String) (oracle : SuiteOracle) :
    ∀ cs : List (List (String × RivetConfig)),
      ∀ sr ∈ (runSuiteChunks true f oracle cs).dropLast, sr.failed = 0 := by
  intro cs
  induction cs with
  | nil =>
    intro sr h
    simp [runSuiteChunks] at h
  | cons c cs' ih =>
    intro sr h
    simp only [runSuiteChunks] at h
    cases hb : (collectSuiteChunk true f oracle c).2 with
    | true =>
      simp only [hb, if_true] at h
      rw [List.append_nil] at h
      exact collectSuiteChunk_dropLast f oracle c sr h
    | false =>
      simp only [hb, if_false] at h
      rcases mem_dropLast_append _ _ _ h with h1 | h1
      · exact collectSuiteChunk_all_pass f oracle c hb sr h1
      · exact ih sr h1

/-- C1 as amended: with bail enabled the first failing result halts
further scheduling within a step list (sequentially or across chunks:
every collected result except possibly the last passed) and at the
multi-suite level (every collected suite result except possibly the
last has no failures); but a failing setup step does not halt the
remaining setup steps — every filtered setup step's result is always
recorded — and a failing dataset row does not halt subsequent rows —
every row's (individually bail-truncated) step results are always
recorded. -/
theorem claim_c1_amended :
    (∀ (filterPat : Option String) (oracle : String → Bool) (steps : List String) (par : Nat),
        ∀ r ∈ (runTestSteps true filterPat oracle steps par).dropLast, r.2 = true)
  ∧ (∀ (filterPat : Option String) (par : Nat) (oracle : SuiteOracle)
        (suites : List (String × RivetConfig)),
        ∀ sr ∈ (runTests true filterPat par oracle suites).dropLast, sr.failed = 0)
  ∧ (∀ (bail : Bool) (filterPat : Option String) (par : Nat) (cfg : RivetConfig)
        (oracle : StepOracle) (s : String),
        s ∈ cfg.setup.getD [] → shouldRunTest filterPat s = true →
        ("Setup: " ++ s, oracle 0 s) ∈ runSingleSuite bail filterPat par cfg oracle)
  ∧ (∀ (bail : Bool) (filterPat : Option String) (par : Nat) (cfg : RivetConfig)
        (oracle : StepOracle) (ds : DatasetM), cfg.dataset = some ds →
        ∀ i, i < ds.rows.length →
        ∀ r ∈ runTestSteps bail filterPat (oracle i) cfg.tests (ds.parallel.getD par),
          r ∈ runSingleSuite bail filterPat par cfg oracle) := by
  refine ⟨?_, ?_, ?_, ?_⟩
  · exact fun f oracle steps par => runTestSteps_dropLast f oracle steps par
  · intro f par oracle suites sr h
    unfold runTests at h
    split at h
    · exact runSuitesSequential_dropLast f par oracle suites sr h
    · exact runSuiteChunks_dropLast f oracle (chunksOf par suites) sr h
  · intro bail f par cfg oracle s hs hrun
    simp only [runSingleSuite, List.mem_append]
    refine Or.inl (Or.inl ?_)
    simp only [auxStepResults, List.mem_map]
    exact ⟨s, List.mem_filter.mpr ⟨hs, hrun⟩, rfl⟩
  · intro bail f par cfg oracle ds hds i hi r hr
    simp only [runSingleSuite, hds, List.mem_append]
    refine Or.inl (Or.inr ?_)
    simp only [List.mem_flatMap, List.mem_range]
    exact ⟨i, hi, hr⟩

/-- Witness for the amended C1: bail truncation in a sequential step
list, and dispatch of a setup step after a failing one. -/
theorem claim_c1_amended_witness :
    (("a", true) : String × Bool).2 = true
  ∧ ("Setup: " ++ "s2", oracleC1 0 "s2") ∈ runSingleSuite true none 1 cfgC1 oracleC1 :=
  ⟨claim_c1_amended.1 none (fun s => s == "a") ["a", "b"] 1 ("a", true) (by decide),
   claim_c1_amended.2.2.1 true none 1 cfgC1 oracleC1 "s2" (by decide) (by decide)⟩

/-! ## Claims about the variable-context lifecycle -/

/-- C7 is refuted as stated: the performance-runner worker context is
not built by the claimed lifecycle.  With the process environment
binding `HOME` and suite vars `a = "1", b = "\x7b\x7ba\x7d\x7d"`, the test-runner
context is seeded from the environment and resolves the chained
reference (`HOME` visible, `b = "1"`), while `worker_task` builds a
fresh empty context with the raw var values (`HOME` absent,
`b = "\x7b\x7ba\x7d\x7d"`). -/
theorem claim_c7_counterexample :
    lookupVar (workerContext varsC7 (some "staging")) "HOME" = none
  ∧ lookupVar (workerContext varsC7 (some "staging")) "b" = some "\x7b\x7ba\x7d\x7d"
  ∧ lookupVar (runnerSuiteContext procEnvC7 varsC7 (some "staging")) "HOME" = some "/h"
  ∧ lookupVar (runnerSuiteContext procEnvC7 varsC7 (some "staging")) "b" = some "1" := by
  have h1 : substituteVariables procEnvC7 ⟨[("HOME", "/h")]⟩ "1" = "1" :=
    substituteVariables_id _ _ _ (by decide) (by decide)
  have h2 : substituteVariables procEnvC7 ⟨[("a", "1"), ("HOME", "/h")]⟩ "\x7b\x7ba\x7d\x7d" = "1" := by
    unfold substituteVariables
    rw [show ("\x7b\x7ba\x7d\x7d" : String).data = varRefText ['a'] from by decide]
    rw [varScan_varRef _ 'a' [] (by decide)]
    rw [show varReplacement (lookupVar ⟨[("a", "1"), ("HOME", "/h")]⟩) ['a'] =
        ("1" : String).data from by
      unfold varReplacement
      rw [show lookupVar ⟨[("a", "1"), ("HOME", "/h")]⟩ (String.mk ['a']) = some "1"
        from by decide]]
    rw [envScan_id _ _ _ (by decide)]
  have e1 : runnerSuiteContext procEnvC7 varsC7 (some "staging") =
      ⟨[("RIVET_ENV", "staging"), ("b", "1"), ("a", "1"), ("HOME", "/h")]⟩ := by
    show setVariable (withConfigVars procEnvC7 (withEnvVars VariableContext.empty procEnvC7) varsC7)
      "RIVET_ENV" "staging" = _
    rw [show withEnvVars VariableContext.empty procEnvC7 = ⟨[("HOME", "/h")]⟩ from rfl]
    rw [show withConfigVars procEnvC7 ⟨[("HOME", "/h")]⟩ varsC7 =
        setVariable (setVariable ⟨[("HOME", "/h")]⟩ "a"
            (substituteVariables procEnvC7 ⟨[("HOME", "/h")]⟩ "1"))
          "b" (substituteVariables procEnvC7
            (setVariable ⟨[("HOME", "/h")]⟩ "a" (substituteVariables procEnvC7 ⟨[("HOME", "/h")]⟩ "1"))
            "\x7b\x7ba\x7d\x7d") from rfl]
    rw [h1]
    rw [show setVariable ⟨[("HOME", "/h")]⟩ "a" "1" = ⟨[("a", "1"), ("HOME", "/h")]⟩ from rfl]
    rw [h2]
    rfl
  refine ⟨by decide, by decide, ?_, ?_⟩
  · rw [e1]
    decide
  · rw [e1]
    decide

/-- C7 as amended: the test-runner context is built exactly as claimed
— seeded from the process environment, suite vars merged with each
value resolved against the context as built so far, then the optional
`RIVET_ENV` marker, and dataset-row contexts are independent copies
extended with the row bindings — but each performance-runner worker
instead starts from an empty context, copies the suite vars only when
an environment name was supplied, copies them raw without resolution,
never seeds from the process environment, and adds no worker-specific
bindings. -/
theorem claim_c7_amended :
    (∀ (env : ProcEnv) (cfgVars : Option (List (String × String))) (e : String),
        runnerSuiteContext env cfgVars (some e) =
          setVariable (withConfigVars env (withEnvVars VariableContext.empty env) cfgVars)
            "RIVET_ENV" e)
  ∧ (∀ (env : ProcEnv) (cfgVars : Option (List (String × String))),
        runnerSuiteContext env cfgVars none =
          withConfigVars env (withEnvVars VariableContext.empty env) cfgVars)
  ∧ (∀ (env : ProcEnv) (ctx : VariableContext) (k v : String) (rest : List (String × String)),
        withConfigVars env ctx (some ((k, v) :: rest)) =
          withConfigVars env (setVariable ctx k (substituteVariables env ctx v)) (some rest))
  ∧ (∀ (base : VariableContext) (row : List (String × String)),
        rowContext base row = withDataRow base row)
  ∧ (∀ (k v : String) (base : VariableContext),
        lookupVar (withDataRow base [(k, v)]) k = some v)
  ∧ (∀ cfgVars, workerContext cfgVars none = VariableContext.empty)
  ∧ (∀ e : String, workerContext none (some e) = VariableContext.empty)
  ∧ (∀ (e : String) (vars : List (String × String)),
        workerContext (some vars) (some e) =
          vars.foldl (fun c kv => setVariable c kv.1 kv.2) VariableContext.empty) := by
  refine ⟨fun env cfgVars e => rfl, fun env cfgVars => rfl, fun env ctx k v rest => rfl,
    fun base row => rfl, ?_, ?_, fun e => rfl, fun e vars => rfl⟩
  · intro k v base
    simp [withDataRow, setVariable, lookupVar]
  · intro cfgVars
    cases cfgVars <;> rfl

theorem mkSuiteResult_inv (n : String) (rs : List (String × Bool)) :
    (mkSuiteResult n rs).passed + (mkSuiteResult n rs).failed
      = (mkSuiteResult n rs).results.length := by
  simp only [mkSuiteResult]
  have := List.length_filter_le (fun r : String × Bool => r.2) rs
  omega

theorem runSuitesSequential_shape (bail : Bool) (f : Option String) (par : Nat)
    (oracle : SuiteOracle) :
    ∀ (suites : List (String × RivetConfig)) (sr : TestSuiteResult),
      sr ∈ runSuitesSequential bail f par oracle suites → ∃ n rs, sr = mkSuiteResult n rs := by
  intro suites
  induction suites with
  | nil =>
    intro sr h
    simp [runSuitesSequential] at h
  | cons s rest ih =>
    obtain ⟨n, cfg⟩ := s
    intro sr h
    simp only [runSuitesSequential] at h
    split at h
    · simp at h
      exact ⟨n, _, h⟩
    · rcases List.mem_cons.mp h with h1 | h1
      · exact ⟨n, _, h1⟩
      · exact ih sr h1

theorem collectSuiteChunk_shape (bail : Bool) (f : Option String) (oracle : SuiteOracle) :
    ∀ (chunk : List (String × RivetConfig)) (sr : TestSuiteResult),
      sr ∈ (collectSuiteChunk bail f oracle chunk).1 → ∃ n rs, sr = mkSuiteResult n rs := by
  intro chunk
  induction chunk with
  | nil =>
    intro sr h
    simp [collectSuiteChunk] at h
  | cons s rest ih =>
    obtain ⟨n, cfg⟩ := s
    intro sr h
    simp only [collectSuiteChunk] at h
    split at h
    · simp at h
      exact ⟨n, _, h⟩
    · rcases List.mem_cons.mp h with h1 | h1
      · exact ⟨n, _, h1⟩
      · exact ih sr h1

theorem runSuiteChunks_shape (bail : Bool) (f : Option String) (oracle : SuiteOracle) :
    ∀ (cs : List (List (String × RivetConfig))) (sr : TestSuiteResult),
      sr ∈ runSuiteChunks bail f oracle cs → ∃ n rs, sr = mkSuiteResult n rs := by
  intro cs
  induction cs with
  | nil =>
    intro sr h
    simp [runSuiteChunks] at h
  | cons c cs' ih =>
    intro sr h
    simp only [runSuiteChunks] at h
    rcases List.mem_append.mp h with h1 | h1
    · exact collectSuiteChunk_shape bail f oracle c sr h1
    · split at h1
      · simp at h1
      · exact ih sr h1

/-- C8: every `TestSuiteResult` produced by the test runner — in both
the sequential and the chunked-parallel multi-suite paths — satisfies
`passed + failed = results.length`, where `passed` counts the contained
results that passed. -/
theorem claim_c8_suite_invariant :
    ∀ (bail : Bool) (f : Option String) (par : Nat) (oracle : SuiteOracle)
      (suites : List (String × RivetConfig)) (sr : TestSuiteResult),
      sr ∈ runTests bail f par oracle suites →
      sr.passed + sr.failed = sr.results.length
      ∧ sr.passed = (sr.results.filter (fun r => r.2)).length := by
  intro bail f par oracle suites sr h
  have hshape : ∃ n rs, sr = mkSuiteResult n rs := by
    unfold runTests at h
    split at h
    · exact runSuitesSequential_shape bail f par oracle suites sr h
    · exact runSuiteChunks_shape bail f oracle (chunksOf par suites) sr h
  obtain ⟨n, rs, rfl⟩ := hshape
  exact ⟨mkSuiteResult_inv n rs, rfl⟩

/-- Witness for C8: a one-suite run with one passing and one failing
step gives `1 + 1 = 2`. -/
theorem claim_c8_suite_invariant_witness :
    (mkSuiteResult "s" [("ok", true), ("bad", false)]).passed
      + (mkSuiteResult "s" [("ok", true), ("bad", false)]).failed
    = (mkSuiteResult "s" [("ok", true), ("bad", false)]).results.length :=
  (claim_c8_suite_invariant false none 1
    (fun _ _ s => s == "ok")
    [("s", { vars := none, setup := none, tests := ["ok", "bad"], teardown := none, dataset := none })]
    (mkSuiteResult "s" [("ok", true), ("bad", false)])
    (by decide)).1

end Rivet
